import Mathlib

/-!
# Verification of the NWChem input generator (`ccinput/packages/nwchem.py`)

This file shallowly embeds the generation pipeline of the NWChem input
generator.  Python strings are modelled as Lean `String` (a wrapper over
`List Char`), and the Python `str` operations used by the source
(`in`, `replace`, `split`, `strip`, `lower`, `join`, character filtering)
are defined below on `List Char` with exactly the Python semantics.

External collaborators (the synonym tables `get_basis_set` / `get_solvent`,
the `SOFTWARE_MULTIPLICITY` table, `clean_xyz`, the element tables, the
basis-set-exchange database and float parsing) are modelled as an
environment of abstract functions, as the specification treats them.
-/

namespace CcInput

/-! ## Python string primitives on `List Char` -/

/-- The whitespace characters stripped by Python `str.strip()`. -/
def pyWs (c : Char) : Bool :=
  c == ' ' || c == '\t' || c == '\n' || c == '\r' || c == '\x0b' || c == '\x0c'

/-- Python `pat in s` / `s.find(pat) != -1`: contiguous substring test. -/
def occursIn (p : List Char) : List Char → Bool
  | [] => p.isEmpty
  | c :: t => p.isPrefixOf (c :: t) || occursIn p t

/-- Fuel-driven worker for `replaceCore` (the fuel makes the recursion
structural, so that the kernel can evaluate it; any fuel at least the
length of the list gives the same result). -/
def replaceGo (pat rep : List Char) : Nat → List Char → List Char
  | _, [] => []
  | 0, s => s
  | fuel + 1, c :: t =>
    if pat.isPrefixOf (c :: t) ∧ pat ≠ [] then
      rep ++ replaceGo pat rep fuel ((c :: t).drop pat.length)
    else
      c :: replaceGo pat rep fuel t

/-- Python `s.replace(pat, rep)` for non-empty `pat`: leftmost,
non-overlapping replacement of every occurrence.  (For `pat = []` this
returns `s` unchanged; the source never calls `replace` with an empty
pattern.) -/
def replaceCore (pat rep s : List Char) : List Char :=
  replaceGo pat rep s.length s

/-- Fuel-driven worker for `splitCore`. -/
def splitGo (sep : List Char) : Nat → List Char → List (List Char)
  | _, [] => [[]]
  | 0, s => [s]
  | fuel + 1, c :: t =>
    if sep.isPrefixOf (c :: t) ∧ sep ≠ [] then
      [] :: splitGo sep fuel ((c :: t).drop sep.length)
    else
      match splitGo sep fuel t with
      | [] => [[c]]
      | h :: r => (c :: h) :: r

/-- Python `s.split(sep)` for non-empty `sep`: leftmost, non-overlapping. -/
def splitCore (sep s : List Char) : List (List Char) :=
  splitGo sep s.length s

/-- Python `sep.join(parts)`. -/
def interCore (sep : List Char) : List (List Char) → List Char
  | [] => []
  | [x] => x
  | x :: y :: r => x ++ sep ++ interCore sep (y :: r)

/-- Python `s.strip()`. -/
def stripCore (s : List Char) : List Char :=
  ((s.dropWhile pyWs).reverse.dropWhile pyWs).reverse

/-- First whitespace-separated word of a line (Python `line.split()[0]`). -/
def firstWord (s : List Char) : List Char :=
  (s.dropWhile pyWs).takeWhile (fun c => !pyWs c)

/-! String-level wrappers. -/

def pyIn (pat s : String) : Bool := occursIn pat.data s.data

def pyReplace (s pat rep : String) : String := ⟨replaceCore pat.data rep.data s.data⟩

def pySplitOn (s sep : String) : List String := (splitCore sep.data s.data).map (⟨·⟩)

def pyJoin (sep : String) (parts : List String) : String :=
  ⟨interCore sep.data (parts.map String.data)⟩

def pyStrip (s : String) : String := ⟨stripCore s.data⟩

def pyLower (s : String) : String := ⟨s.data.map Char.toLower⟩

/-- Number of occurrences of a non-empty pattern (`len(s.split(pat)) - 1`). -/
def countOcc (pat s : String) : Nat := (splitCore pat.data s.data).length - 1

/-! ## Data model -/

/-- `ccinput.constants.CalcType`, restricted to the members the NWChem
generator mentions, plus `UVVIS` as a representative of calculation types
with no entry in the NWChem keyword table. -/
inductive CalcType
  | OPT | CONSTR_OPT | TS | FREQ | NMR | SP | OPTFREQ | MEP | UVVIS
  deriving DecidableEq

/-- A geometric constraint (external collaborator): the generator only
reads its `scan` flag and calls its `to_nwchem()` rendering, modelled as
a stored string. -/
structure Constraint where
  scan : Bool
  to_nwchem : String
  deriving DecidableEq

/-- The parameters of a calculation request.  `custom_basis_sets` is a
Python dict mapping element symbol to a basis-set keyword, modelled as an
association list in insertion order. -/
structure Parameters where
  theory_level : String
  method : String
  basis_set : String
  custom_basis_sets : List (String × String)
  solvent : String
  solvation_model : String
  solvation_radii : String
  custom_solvation_radii : String
  specifications : String
  software : String
  d3 : Bool
  d3bj : Bool
  deriving DecidableEq

/-- The calculation request (`self.calc`).  In Python the generator holds
a reference to the very object the caller owns, so any attribute
assignment through `self.calc` is visible to the caller; the embedding
threads this shared object through the generation state. -/
structure Calculation where
  parameters : Parameters
  type : CalcType
  constraints : List Constraint
  charge : Int
  multiplicity : Nat
  mem : String
  name : String
  header : String
  xyz : String
  deriving DecidableEq

/-- The error kinds the generator can raise.  `impossibleCalculation` is
`ImpossibleCalculation` (the spec's `UnsupportedCalculation`),
`unimplementedError` is `UnimplementedError` (the spec's
`UnsupportedSolvationModel`), and `attributeError` is an uncaught Python
`AttributeError` escaping `parse_custom_basis_set`. -/
inductive Err
  | impossibleCalculation
  | missingParameter
  | invalidParameter
  | unimplementedError
  | attributeError
  deriving DecidableEq

/-- External collaborators.  `bse_get_basis` returns `none` when the
basis-set-exchange query raises (the bare `except:` branch), otherwise
the raw NWChem-format text.  `lowercase_atomic_symbols` is the
`LOWERCASE_ATOMIC_SYMBOLS` dict (symbol in lower case ↦ proper-case
symbol).  `float_repr` is Python `float(...)` followed by `str(...)`,
`none` on `ValueError`. -/
structure Env where
  get_basis_set : String → String
  get_solvent : String → String → String → String
  software_multiplicity : Nat → String
  clean_xyz : String → String
  atomic_number : String → Option Nat
  bse_get_basis : String → Nat → Option String
  lowercase_atomic_symbols : String → Option String
  float_repr : String → Option String

/-- The mutable state of one generation run: the shared `calc` object and
the `NWChemCalculation` instance attributes.  `basis_set = none` models
the attribute not having been assigned yet (it is absent from
`__init__`).  `warnings` collects `warn(...)` calls, `side_file` the
optional custom-solvation-radii parameter file. -/
structure St where
  calc_ : Calculation
  tasks : String
  method_block : String
  calculation_block : String
  additional_block : String
  basis_set : Option String
  xyz_structure : String
  solvation_radii : List (String × String)
  input_file : String
  warnings : List String
  side_file : Option (String × String)
  deriving DecidableEq

/-! ## The pipeline -/

/-- The `KEYWORDS` table: task keywords per calculation type; `none` for
types NWChem does not support. -/
def KEYWORDS : CalcType → Option (List String)
  | .OPT => some ["optimize"]
  | .CONSTR_OPT => some ["optimize"]
  | .TS => some ["saddle"]
  | .FREQ => some ["freq"]
  | .NMR => some ["property"]
  | .SP => some ["energy"]
  | .OPTFREQ => some ["optimize", "freq"]
  | .MEP => some ["neb ignore"]
  | .UVVIS => none

/-- The character whitelist of `NWChemCalculation.clean`. -/
def WHITELIST : List Char :=
  "0123456789abcdefghijklmnopqrstuvwxyzABCDEFGHIJKLMNOPQRSTUVWXYZ/()=-,._ ".data

/-- `NWChemCalculation.clean`: keep only whitelisted characters. -/
def clean (s : String) : String := ⟨s.data.filter (WHITELIST.contains ·)⟩

/-- `NWChemCalculation.separate_lines`: split the specification string on
`;`, drop blank statements, lower-case, strip and sanitize each statement,
and re-join with newlines. -/
def separate_lines (text : String) : String :=
  pyJoin "\n"
    (((pySplitOn text ";").filter (fun line => pyStrip line != "")).map
      (fun line => clean (pyStrip (pyLower line))))

/-- Index of the last occurrence of a character. -/
def lastIdxOf (c : Char) (s : List Char) : Option Nat :=
  (s.foldl (fun (acc : Nat × Option Nat) ch =>
    (acc.1 + 1, if ch == c then some acc.1 else acc.2)) (0, none)).2

/-- The effect of `re.search(r".*\((.*)\)", spec)` together with the
follow-up slicing `spec[: matched.span(1)[0] - 1]`: with both greedy
stars, the group is delimited by the last `)` of the statement and the
last `(` before it; the block name is everything before that `(`.
Returns `none` when the regex does not match (no `(` followed by `)`). -/
def parenMatch (s : String) : Option (String × String) :=
  match lastIdxOf ')' s.data with
  | none => none
  | some j =>
    match lastIdxOf '(' (s.data.take j) with
    | none => none
    | some i => some (⟨s.data.take i⟩, ⟨(s.data.take j).drop (i + 1)⟩)

/-- The theory-level aliasing done in `__init__` ("Some specific syntax
processing related only to nwchem"): HF-like requests use the `scf`
block, coupled-cluster requests the `ccsd` block. -/
def aliasParameters (p : Parameters) : Parameters :=
  if p.theory_level == "hf" || p.method == "uhf" || p.method == "rhf" then
    { p with theory_level := "scf" }
  else if p.theory_level == "cc" then
    { p with theory_level := "ccsd" }
  else p

/-- The two attribute assignments `__init__` performs on the caller's
`calc` object: `self.calc.mem = f"{self.calc.mem} mb"` and the
theory-level aliasing on `self.calc.parameters`. -/
def initCalc (c0 : Calculation) : Calculation :=
  { c0 with mem := c0.mem ++ " mb", parameters := aliasParameters c0.parameters }

/-- The state right after the attribute initialisation of `__init__`
(note `self.method_block = f"{...theory_level}"` at line 93). -/
def initSt (c0 : Calculation) : St :=
  let c := initCalc c0
  { calc_ := c
    tasks := ""
    method_block := c.parameters.theory_level
    calculation_block := ""
    additional_block := ""
    basis_set := none
    xyz_structure := ""
    solvation_radii := []
    input_file := ""
    warnings := []
    side_file := none }

/-- `handle_tasks`: emit one `task` line per keyword, seed the method
block according to the theory level, and seed the property directive for
NMR calculations. -/
def handle_tasks (env : Env) (st : St) : St :=
  let keyword :=
    if st.calc_.parameters.theory_level == "ccsd" then st.calc_.parameters.method
    else st.calc_.parameters.theory_level
  let words := (KEYWORDS st.calc_.type).getD []
  { st with
    tasks := st.tasks ++
      String.join (words.map (fun w => "task " ++ keyword ++ " " ++ w ++ " \n"))
    method_block :=
      if st.calc_.parameters.theory_level == "scf" then
        st.method_block ++ "\n" ++
          (if st.calc_.parameters.method != "hf" then st.calc_.parameters.method ++ " \n" else "") ++
          env.software_multiplicity st.calc_.multiplicity ++ " \n"
      else if st.calc_.parameters.theory_level == "dft" then
        st.method_block ++
          "\n            xc " ++ st.calc_.parameters.method ++
          "\n            mult " ++ toString st.calc_.multiplicity ++
          "\n            " ++
          (if st.calc_.parameters.d3 then "disp vdw 3 \n"
           else if st.calc_.parameters.d3bj then "disp vdw 4 \n"
           else "")
      else if st.calc_.parameters.theory_level == "mp2" || st.calc_.parameters.theory_level == "ccsd" then
        st.method_block ++ "\n"
      else st.method_block
    calculation_block :=
      if st.calc_.type == CalcType.NMR then
        st.calculation_block ++ " \n property \n shielding \n"
      else st.calculation_block }

/-- Python dict assignment `d[k] = v` on an association list. -/
def dictInsert (d : List (String × String)) (k v : String) : List (String × String) :=
  if (d.map Prod.fst).contains k then
    d.map (fun p => if p.1 == k then (k, v) else p)
  else d ++ [(k, v)]

/-- `parse_custom_solvation_radii`: parse the `element=value;...` string,
validating each element against the element table and each value as a
float. -/
def parse_custom_solvation_radii (env : Env) :
    List String → List (String × String) → Except Err (List (String × String))
  | [], acc => .ok acc
  | radius :: rest, acc =>
    if pyStrip radius == "" then parse_custom_solvation_radii env rest acc
    else
      match pySplitOn radius "=" with
      | [element, rad] =>
        match env.lowercase_atomic_symbols element with
        | none => .error .invalidParameter
        | some el =>
          match env.float_repr rad with
          | none => .error .invalidParameter
          | some r => parse_custom_solvation_radii env rest (dictInsert acc el r)
      | _ => .error .invalidParameter

/-- The warning emitted when the custom-radii side file is generated. -/
def radiiWarn (name : String) : String :=
  "Addtitional file " ++ name ++ "_sol.parameters was generated. This file will be needed for calculation to run."

/-- `handle_solvation`: no-op for vacuum; otherwise emit the cosmo block,
validate the solvation model (the solvent-density variant `smd` is only
legal with DFT) and radii policy, and handle custom radii (side file plus
warning). -/
def handle_solvation (env : Env) (st : St) : Except Err St :=
  if pyLower st.calc_.parameters.solvent == "" || pyLower st.calc_.parameters.solvent == "vacuum" then
    .ok st
  else
    let solvation_model := pyLower st.calc_.parameters.solvation_model
    let solvent_keyword := env.get_solvent st.calc_.parameters.solvent
      st.calc_.parameters.software st.calc_.parameters.solvation_model
    let st1 := { st with additional_block := st.additional_block ++
        "\n cosmo \n minbem 3 \n ificos 1 \n solvent " ++ solvent_keyword ++ " \n" }
    let step : Except Err St :=
      if solvation_model == "cosmo" then .ok st1
      else if solvation_model == "smd" || solvation_model == "smd18" then
        let st2 := { st1 with additional_block := st1.additional_block ++ "do_cosmo_smd \n" }
        if st2.calc_.parameters.theory_level != "dft" then .error .unimplementedError
        else .ok st2
      else .error .unimplementedError
    match step with
    | .error e => .error e
    | .ok st3 =>
      if st3.calc_.parameters.solvation_radii != "" && st3.calc_.parameters.solvation_radii != "default" then
        .error .unimplementedError
      else if st3.calc_.parameters.custom_solvation_radii != "" then
        match parse_custom_solvation_radii env
            (pySplitOn st3.calc_.parameters.custom_solvation_radii ";") [] with
        | .error e => .error e
        | .ok radii =>
          .ok { st3 with
            solvation_radii := radii
            side_file := some (st3.calc_.name ++ "_sol.parameters",
              pyJoin "\n" (radii.map (fun p => p.1 ++ " " ++ p.2)))
            additional_block := st3.additional_block ++
              "parameters " ++ st3.calc_.name ++ "_sol.parameters \n"
            warnings := st3.warnings ++ [radiiWarn st3.calc_.name] }
      else .ok st3

/-- The bare specification tokens that select the alternative
reaction-path algorithm (`string` instead of `neb`). -/
def variantKeys : List String :=
  ["string", "freezing string sethod", "fsm", "freezing string"]

/-- One iteration of the specification-routing loop of
`handle_specifications`: dispatch a single sanitized statement.  The
second component of the state is `temp`, the buffer for frequency
specifications of OPTFREQ calculations. -/
def specStep (st : St) (temp : String) (spec : String) : St × String :=
  match parenMatch spec with
  | none =>
    if variantKeys.contains spec then
      ({ st with tasks := pyReplace st.tasks "neb" "string" }, temp)
    else
      ({ st with additional_block := st.additional_block ++ spec ++ " \n" }, temp)
  | some (block_name, command) =>
    if block_name == "scf" || block_name == "dft" || block_name == "hf" then
      ({ st with method_block := st.method_block ++ command ++ " \n" }, temp)
    else if (block_name == "opt" || block_name == "ts") &&
        (st.calc_.type == CalcType.CONSTR_OPT || st.calc_.type == CalcType.OPT ||
         st.calc_.type == CalcType.TS || st.calc_.type == CalcType.OPTFREQ) then
      let cb := if st.calculation_block == "" then st.calculation_block ++ "\n driver \n"
                else st.calculation_block
      ({ st with calculation_block := cb ++ command ++ " \n" }, temp)
    else if block_name == "nmr" && st.calc_.type == CalcType.NMR then
      ({ st with calculation_block := st.calculation_block ++ command ++ " \n" }, temp)
    else if block_name == "freq" && st.calc_.type == CalcType.FREQ then
      let cb := if st.calculation_block == "" then st.calculation_block ++ "\n freq \n"
                else st.calculation_block
      ({ st with calculation_block := cb ++ command ++ " \n" }, temp)
    else if block_name == "freq" && st.calc_.type == CalcType.OPTFREQ then
      (st, temp ++ command ++ " \n")
    else if (block_name == "neb" || block_name == "string" || block_name == "fsm") &&
        st.calc_.type == CalcType.MEP then
      let cb := if st.calculation_block == "" then st.calculation_block ++ "\n neb \n"
                else st.calculation_block
      ({ st with calculation_block := cb ++ command ++ " \n" }, temp)
    else if block_name == "sol" || block_name == "cosmo" || block_name == "smd" then
      ({ st with additional_block :=
          pyReplace st.additional_block "cosmo \n" ("cosmo \n " ++ command ++ " \n") }, temp)
    else if block_name == "mp2" && st.calc_.parameters.theory_level == "mp2" then
      ({ st with method_block := st.method_block ++ command ++ " \n" }, temp)
    else if block_name == "cc" && st.calc_.parameters.theory_level == "ccsd" then
      ({ st with method_block := st.method_block ++ command ++ " \n" }, temp)
    else
      (st, temp)

/-- Fold `specStep` over the statement list. -/
def specFold : St → String → List String → St × String
  | st, temp, [] => (st, temp)
  | st, temp, spec :: rest =>
    let p := specStep st temp spec
    specFold p.1 p.2 rest

/-- The list of sanitized statements the routing loop iterates over
(empty when the guard `clean(specifications).strip() != ""` fails and
the loop is skipped). -/
def specTokens (specifications : String) : List String :=
  if pyStrip (clean specifications) != "" then
    pySplitOn (separate_lines specifications) "\n"
  else []

/-- `handle_specifications`: route every specification statement, flush
the buffered OPTFREQ frequency block, reset a method block left empty by
MP2/coupled-cluster theory levels, apply the reaction-path keyword swap
to the calculation block, and build the constraint (and scan) blocks for
constrained optimizations. -/
def handle_specifications (st0 : St) : Except Err St :=
  let r := specFold st0 "\n" (specTokens st0.calc_.parameters.specifications)
  let ab1 :=
    if r.2 != "\n" then r.1.additional_block ++ "\n freq " ++ r.2 ++ " end \n"
    else r.1.additional_block
  let mb1 :=
    if r.1.calc_.parameters.theory_level == "mp2" && r.1.method_block == "mp2\n" then ""
    else r.1.method_block
  let mb2 :=
    if r.1.calc_.parameters.theory_level == "ccsd" && mb1 == "ccsd\n" then ""
    else mb1
  let cb1 :=
    if pyIn "string" r.1.tasks then pyReplace r.1.calculation_block "neb" "string"
    else r.1.calculation_block
  if r.1.calc_.type == CalcType.CONSTR_OPT then
    if r.1.calc_.constraints.length == 0 then
      .error .invalidParameter
    else
      let cs := String.join (r.1.calc_.constraints.map Constraint.to_nwchem)
      let ab2 :=
        if cs != "" then
          ab1 ++ "\n geometry adjust \n zcoord \n " ++ cs ++ " end \n end \n"
        else ab1
      .ok { r.1 with
        method_block := mb2
        calculation_block := cb1
        additional_block := ab2 ++
          String.join ((r.1.calc_.constraints.filter Constraint.scan).map Constraint.to_nwchem) }
  else
    .ok { r.1 with
      method_block := mb2
      calculation_block := cb1
      additional_block := ab1 }

/-- `handle_xyz`: normalise the cleaned coordinates to one line per atom. -/
def handle_xyz (env : Env) (st : St) : St :=
  { st with xyz_structure :=
      String.join (((pySplitOn (env.clean_xyz st.calc_.xyz) "\n").filter
        (fun i => i != "")).map (fun i => i ++ "\n")) }

/-- The warning emitted when a basis-set-exchange query fails
(`parse_custom_basis_set`, bare `except:` branch). -/
def bseWarn (bs_keyword : String) : String :=
  "Basis set " ++ bs_keyword ++ " couldn't be pulled from basis set exchange. The ECP will not be added to this basis set."

/-- `re.search(marker ++ "(.*?)END", text, re.DOTALL).group(1)`: the text
between the first occurrence of `marker` and the first `END` after it;
`none` when the regex does not match. -/
def searchSpan (marker : String) (text : String) : Option String :=
  match splitCore marker.data text.data with
  | _ :: rest1 :: rest =>
    match splitCore "END".data (interCore marker.data (rest1 :: rest)) with
    | g :: _ :: _ => some ⟨g⟩
    | _ => none
  | _ => none

/-- The unique-atom scan at the top of `parse_custom_basis_set`:
`unique_atoms` is every element appearing in the geometry, in order of
first appearance; `normal_atoms` is the sub-list of those without a
custom basis-set override. -/
def scanAtoms (custom_keys : List String) :
    List String → List String × List String → List String × List String
  | [], acc => acc
  | line :: rest, (unique, normal) =>
    if pyStrip line == "" then scanAtoms custom_keys rest (unique, normal)
    else
      let a : String := ⟨firstWord line.data⟩
      if unique.contains a then scanAtoms custom_keys rest (unique, normal)
      else
        scanAtoms custom_keys rest
          (unique ++ [a],
           if !(normal.contains a) && !(custom_keys.contains a) then normal ++ [a] else normal)

/-- The accumulators of the custom-basis loop of
`parse_custom_basis_set`. -/
structure BsLoop where
  to_append_bs : List String
  to_append_ecp : List String
  not_recognized : List (String × String)
  custom_atoms : List String
  warnings : List String
  deriving DecidableEq

/-- The per-element loop of `parse_custom_basis_set`: skip overrides for
elements absent from the geometry, validate the element symbol, query the
basis-set-exchange database, and on failure record the raw keyword plus a
warning.  A successful query whose text lacks the fixed `BASIS` marker
makes `matched_bs.group(1)` raise `AttributeError` (uncaught: it is
outside the `try`). -/
def customLoop (env : Env) (unique_atoms : List String) :
    List (String × String) → BsLoop → Except Err BsLoop
  | [], acc => .ok acc
  | (el, bs_keyword) :: rest, acc =>
    if !(unique_atoms.contains el) then customLoop env unique_atoms rest acc
    else
      let acc := { acc with custom_atoms := acc.custom_atoms ++ [el] }
      match env.atomic_number el with
      | none => .error .invalidParameter
      | some el_num =>
        match env.bse_get_basis bs_keyword el_num with
        | none =>
          customLoop env unique_atoms rest
            { acc with
              warnings := acc.warnings ++ [bseWarn bs_keyword]
              not_recognized := acc.not_recognized ++ [(el, bs_keyword)] }
        | some bs =>
          let acc :=
            match searchSpan "ECP\n" bs with
            | some e => { acc with to_append_ecp := acc.to_append_ecp ++ [e] }
            | none => acc
          match searchSpan "BASIS \"ao basis\" SPHERICAL PRINT\n" bs with
          | none => .error .attributeError
          | some b => customLoop env unique_atoms rest
              { acc with to_append_bs := acc.to_append_bs ++ [b] }

/-- `parse_custom_basis_set`: splice the per-element basis (and ECP)
fragments with the default-library fallback for the remaining atoms.
`basis_set = none` models the attribute still being unset; the `try:
self.basis_set += "end" / except:` fallback then emits the default-only
block. -/
def parse_custom_basis_set (env : Env) (base_bs : String) (st : St) : Except Err St :=
  let custom := st.calc_.parameters.custom_basis_sets
  let scanned := scanAtoms (custom.map Prod.fst) (pySplitOn st.calc_.xyz "\n") ([], [])
  match customLoop env scanned.1 custom ⟨[], [], [], [], []⟩ with
  | .error e => .error e
  | .ok acc =>
  let bs1 : Option String :=
    if 0 < acc.custom_atoms.length then
      let b := "basis spherical \n " ++ pyJoin "\n" acc.to_append_bs ++ " \n "
      if 0 < scanned.2.length then
        some (b ++ "* library " ++ base_bs ++ " except " ++ pyJoin " " acc.custom_atoms ++ " \n")
      else some b
    else none
  let bs2 : Option String :=
    if 0 < acc.not_recognized.length then
      let b0 := match bs1 with
        | none => "basis\n"
        | some b => b
      some (acc.not_recognized.foldl (fun b p => b ++ p.1 ++ " library " ++ p.2 ++ " \n") b0)
    else bs1
  let bs3 : String :=
    match bs2 with
    | some b => b ++ "end"
    | none => "basis \n * library " ++ base_bs ++ " \n end"
  let bs4 :=
    if 0 < acc.to_append_ecp.length then
      bs3 ++ "\n \n ecp \n" ++ pyJoin "\n" acc.to_append_ecp ++ " end"
    else bs3
  Except.ok { st with basis_set := some bs4, warnings := st.warnings ++ acc.warnings }

/-- The comparison `self.calc.parameters.custom_basis_sets != ''` at line
155 of the source: `custom_basis_sets` is a Python dict (it is indexed
with `.items()` at line 179), and in Python a dict compares unequal to
every string, so this test is `True` whatever the dict holds. -/
def dict_ne_empty_str (_d : List (String × String)) : Bool := true

/-- `handle_basis_sets`: default-library path when a basis set resolved
and no custom overrides exist; otherwise the custom-splice path guarded
by the dict-vs-string comparison; `MissingParameter` in the remaining
case. -/
def handle_basis_sets (env : Env) (st : St) : Except Err St :=
  let basis_set := env.get_basis_set st.calc_.parameters.basis_set
  if basis_set != "" && st.calc_.parameters.custom_basis_sets.length == 0 then
    .ok { st with basis_set := some ("basis \n * library " ++ basis_set ++ " \n end") }
  else if dict_ne_empty_str st.calc_.parameters.custom_basis_sets then
    parse_custom_basis_set env basis_set st
  else
    .error .missingParameter

/-- `close_blocks`: append a closing marker to each of the three
free-text buffers iff it is non-empty (sanitized content for the
ancillary buffer) and does not already contain one. -/
def close_blocks (st : St) : St :=
  { st with
    method_block :=
      if !(pyIn "end \n" st.method_block) && st.method_block != "" then
        st.method_block ++ " end \n"
      else st.method_block
    calculation_block :=
      if !(pyIn "end \n" st.calculation_block) && st.calculation_block != "" then
        st.calculation_block ++ " end \n"
      else st.calculation_block
    additional_block :=
      if !(pyIn "end \n" st.additional_block) && clean st.additional_block != "" then
        st.additional_block ++ "end \n"
      else st.additional_block }

/-- Per-line whitespace normalisation of `create_input_file`. -/
def normalize_lines (s : String) : String :=
  pyJoin "\n" ((pySplitOn s "\n").map pyStrip)

/-- `create_input_file`: interpolate every block into the fixed template
and strip each line. -/
def create_input_file (st : St) : St :=
  let raw :=
    "TITLE \"" ++ st.calc_.header ++ "\"\n    start " ++ st.calc_.name ++
    "\n    memory total " ++ st.calc_.mem ++
    "\n    charge " ++ toString st.calc_.charge ++
    "\n\n    geometry units angstroms\n    " ++ st.xyz_structure ++ "end\n\n    " ++
    (st.basis_set.getD "") ++ "\n\n    " ++
    st.method_block ++ st.calculation_block ++ st.additional_block ++
    "\n    " ++ st.tasks ++ "\n    "
  { st with input_file := normalize_lines raw }

/-- The whole generation run (`NWChemCalculation.__init__`): attribute
initialisation, the supported-calculation check, and the pipeline stages
in source order. -/
def gen (env : Env) (c0 : Calculation) : Except Err St :=
  let st0 := initSt c0
  if (KEYWORDS st0.calc_.type).isNone then
    .error .impossibleCalculation
  else
    let st1 := handle_tasks env st0
    match handle_solvation env st1 with
    | .error e => .error e
    | .ok st2 =>
      match handle_specifications st2 with
      | .error e => .error e
      | .ok st3 =>
        let st4 := handle_xyz env st3
        match handle_basis_sets env st4 with
        | .error e => .error e
        | .ok st5 => .ok (create_input_file (close_blocks st5))

/-! ## Concrete instances used by witnesses and counterexamples -/

/-- A concrete collaborator environment: a small basis-set synonym table,
solvent lookup by lower-casing, a spin-multiplicity table, identity
coordinate cleaning, a two-element atomic-number table, and a basis-set
database that always fails. -/
def envW : Env := {
  get_basis_set := fun b => if b == "6-31g" then "6-31g" else ""
  get_solvent := fun s _ _ => pyLower s
  software_multiplicity := fun n => if n == 1 then "singlet" else "doublet"
  clean_xyz := fun s => s
  atomic_number := fun e => if e == "H" then some 1 else if e == "Pd" then some 46 else none
  bse_get_basis := fun _ _ => none
  lowercase_atomic_symbols := fun e => if e == "h" then some "H" else none
  float_repr := fun _ => none }

/-- A concrete density-functional single-point request on two hydrogens. -/
def calcW : Calculation := {
  parameters := {
    theory_level := "dft"
    method := "b3lyp"
    basis_set := "6-31g"
    custom_basis_sets := []
    solvent := ""
    solvation_model := ""
    solvation_radii := ""
    custom_solvation_radii := ""
    specifications := ""
    software := "nwchem"
    d3 := false
    d3bj := false }
  type := .SP
  constraints := []
  charge := 0
  multiplicity := 1
  mem := "1000"
  name := "calcname"
  header := "header"
  xyz := "H 0 0 0\nH 0 0 0.74\n" }

/-- A request whose basis-set name resolves to the empty string while the
custom per-element override dict is empty. -/
def calcNoBasis : Calculation :=
  { calcW with parameters := { calcW.parameters with basis_set := "" } }

/-- A request whose specification string holds a single parenthesized
token with an unrecognized block name. -/
def calcUnknownToken : Calculation :=
  { calcW with parameters := { calcW.parameters with specifications := "foo(bar)" } }

/-- A constrained optimization with one (non-scan) constraint. -/
def calcConstr : Calculation :=
  { calcW with
    type := .CONSTR_OPT
    constraints := [{ scan := false, to_nwchem := "1 2 1.2 constant " }] }

/-- A constrained optimization with an empty constraint list. -/
def calcConstrEmpty : Calculation :=
  { calcW with type := .CONSTR_OPT, constraints := [] }

/-- A Hartree-Fock request (theory level aliased to `scf` and memory
suffixed during generation). -/
def calcHF : Calculation :=
  { calcW with parameters :=
      { calcW.parameters with theory_level := "hf", method := "hf" } }

/-- A solvated density-functional request with the solvent-density (smd)
solvation model. -/
def calcSmd : Calculation :=
  { calcW with parameters :=
      { calcW.parameters with solvent := "water", solvation_model := "smd" } }

/-- The same solvated request under coupled-cluster theory. -/
def calcSmdCC : Calculation :=
  { calcSmd with parameters :=
      { calcSmd.parameters with theory_level := "cc", method := "ccsd(t)" } }

/-- A request with a single custom basis-set override for an element
present in the geometry, whose database query fails. -/
def calcBse : Calculation :=
  { calcW with
    xyz := "Pd 0 0 0\nH 0 0 1\n"
    parameters := { calcW.parameters with custom_basis_sets := [("Pd", "sdd")] } }

/-- A minimum-energy-path request whose specification string holds a bare
reaction-path-variant token and a `neb(...)` block token. -/
def calcMep : Calculation :=
  { calcW with
    type := .MEP
    parameters := { calcW.parameters with specifications := "neb(nbeads 8);fsm" } }

/-- A second-order-perturbation request with no token routed to the
method block. -/
def calcMp2 : Calculation :=
  { calcW with parameters :=
      { calcW.parameters with
        theory_level := "mp2", method := "mp2", specifications := "opt(xtol)" } }

/-- The block names the Specification Router recognizes for a given
calculation type and theory level (the union of the guards of the
parenthesized-token branches of `handle_specifications`). -/
def recognizedBlock (ty : CalcType) (th : String) (bn : String) : Bool :=
  (bn == "scf" || bn == "dft" || bn == "hf") ||
  ((bn == "opt" || bn == "ts") &&
    (ty == CalcType.CONSTR_OPT || ty == CalcType.OPT || ty == CalcType.TS || ty == CalcType.OPTFREQ)) ||
  (bn == "nmr" && ty == CalcType.NMR) ||
  (bn == "freq" && (ty == CalcType.FREQ || ty == CalcType.OPTFREQ)) ||
  ((bn == "neb" || bn == "string" || bn == "fsm") && ty == CalcType.MEP) ||
  (bn == "sol" || bn == "cosmo" || bn == "smd") ||
  (bn == "mp2" && th == "mp2") ||
  (bn == "cc" && th == "ccsd")

/-- Whether a specification statement is routed into the method block by
the Specification Router, for a given (aliased) theory level: `scf`,
`dft` and `hf` tokens unconditionally, `mp2` and `cc` tokens only under
the matching theory level. -/
def routesToMethod (th : String) (tok : String) : Bool :=
  match parenMatch tok with
  | some bc =>
    bc.1 == "scf" || bc.1 == "dft" || bc.1 == "hf" ||
    (bc.1 == "mp2" && th == "mp2") || (bc.1 == "cc" && th == "ccsd")
  | none => false

/-- A concrete mid-pipeline buffer state with all three free-text buffers
non-empty and unclosed. -/
def stC3 : St := {
  calc_ := calcW
  tasks := "task dft energy \n"
  method_block := "dft\n            xc b3lyp\n            mult 1\n            "
  calculation_block := "\n driver \nxtol \n"
  additional_block := "\n cosmo \n minbem 3 \n ificos 1 \n solvent water \n"
  basis_set := some "basis \n * library 6-31g \n end"
  xyz_structure := "H 0 0 0\n"
  solvation_radii := []
  input_file := ""
  warnings := []
  side_file := none }

/-! ## Generic lemmas about the string primitives -/

theorem replaceGo_fuel (pat rep : List Char) :
    ∀ f1 f2 s, s.length ≤ f1 → s.length ≤ f2 →
      replaceGo pat rep f1 s = replaceGo pat rep f2 s := by
  intro f1
  induction f1 with
  | zero =>
    intro f2 s h1 _
    have : s = [] := List.length_eq_zero.mp (by omega)
    subst this
    cases f2 <;> rfl
  | succ n ih =>
    intro f2 s h1 h2
    cases s with
    | nil => cases f2 <;> rfl
    | cons c t =>
      cases f2 with
      | zero => simp at h2
      | succ m =>
        rw [replaceGo, replaceGo]
        by_cases hc : pat.isPrefixOf (c :: t) ∧ pat ≠ []
        · rw [if_pos hc, if_pos hc]
          have hp1 : 1 ≤ pat.length := by
            cases pat with
            | nil => exact absurd rfl hc.2
            | cons a b => simp
          have hd : ((c :: t).drop pat.length).length ≤ n := by
            simp only [List.length_drop, List.length_cons]
            simp only [List.length_cons] at h1
            omega
          have hd2 : ((c :: t).drop pat.length).length ≤ m := by
            simp only [List.length_drop, List.length_cons]
            simp only [List.length_cons] at h2
            omega
          rw [ih m _ hd hd2]
        · rw [if_neg hc, if_neg hc]
          have ht : t.length ≤ n := by
            simp only [List.length_cons] at h1
            omega
          have ht2 : t.length ≤ m := by
            simp only [List.length_cons] at h2
            omega
          rw [ih m t ht ht2]

theorem replaceCore_nil (pat rep : List Char) : replaceCore pat rep [] = [] := rfl

theorem replaceCore_cons (pat rep : List Char) (c : Char) (t : List Char) :
    replaceCore pat rep (c :: t) =
      if pat.isPrefixOf (c :: t) ∧ pat ≠ [] then
        rep ++ replaceCore pat rep ((c :: t).drop pat.length)
      else
        c :: replaceCore pat rep t := by
  show replaceGo pat rep (c :: t).length (c :: t) = _
  rw [List.length_cons, replaceGo]
  by_cases hc : pat.isPrefixOf (c :: t) ∧ pat ≠ []
  · rw [if_pos hc, if_pos hc, replaceCore]
    have hp1 : 1 ≤ pat.length := by
      cases pat with
      | nil => exact absurd rfl hc.2
      | cons a b => simp
    rw [replaceGo_fuel pat rep t.length ((c :: t).drop pat.length).length _
      (by simp only [List.length_drop, List.length_cons]; omega) le_rfl]
  · rw [if_neg hc, if_neg hc, replaceCore]

theorem splitGo_fuel (sep : List Char) :
    ∀ f1 f2 s, s.length ≤ f1 → s.length ≤ f2 →
      splitGo sep f1 s = splitGo sep f2 s := by
  intro f1
  induction f1 with
  | zero =>
    intro f2 s h1 _
    have : s = [] := List.length_eq_zero.mp (by omega)
    subst this
    cases f2 <;> rfl
  | succ n ih =>
    intro f2 s h1 h2
    cases s with
    | nil => cases f2 <;> rfl
    | cons c t =>
      cases f2 with
      | zero => simp at h2
      | succ m =>
        rw [splitGo, splitGo]
        by_cases hc : sep.isPrefixOf (c :: t) ∧ sep ≠ []
        · rw [if_pos hc, if_pos hc]
          have hp1 : 1 ≤ sep.length := by
            cases sep with
            | nil => exact absurd rfl hc.2
            | cons a b => simp
          have hd : ((c :: t).drop sep.length).length ≤ n := by
            simp only [List.length_drop, List.length_cons]
            simp only [List.length_cons] at h1
            omega
          have hd2 : ((c :: t).drop sep.length).length ≤ m := by
            simp only [List.length_drop, List.length_cons]
            simp only [List.length_cons] at h2
            omega
          rw [ih m _ hd hd2]
        · rw [if_neg hc, if_neg hc]
          have ht : t.length ≤ n := by
            simp only [List.length_cons] at h1
            omega
          have ht2 : t.length ≤ m := by
            simp only [List.length_cons] at h2
            omega
          rw [ih m t ht ht2]

theorem splitCore_nil (sep : List Char) : splitCore sep [] = [[]] := rfl

theorem splitCore_cons (sep : List Char) (c : Char) (t : List Char) :
    splitCore sep (c :: t) =
      if sep.isPrefixOf (c :: t) ∧ sep ≠ [] then
        [] :: splitCore sep ((c :: t).drop sep.length)
      else
        match splitCore sep t with
        | [] => [[c]]
        | h :: r => (c :: h) :: r := by
  show splitGo sep (c :: t).length (c :: t) = _
  rw [List.length_cons, splitGo]
  by_cases hc : sep.isPrefixOf (c :: t) ∧ sep ≠ []
  · rw [if_pos hc, if_pos hc, splitCore]
    have hp1 : 1 ≤ sep.length := by
      cases sep with
      | nil => exact absurd rfl hc.2
      | cons a b => simp
    rw [splitGo_fuel sep t.length ((c :: t).drop sep.length).length _
      (by simp only [List.length_drop, List.length_cons]; omega) le_rfl]
  · rw [if_neg hc, if_neg hc, splitCore]

theorem occursIn_infix_iff (p : List Char) : ∀ s, occursIn p s = true ↔ p <:+: s := by
  intro s
  induction s with
  | nil => simp [occursIn, List.isEmpty_iff, List.infix_nil]
  | cons c t ih =>
    simp [occursIn, List.infix_cons_iff, List.isPrefixOf_iff_prefix, ih]

theorem occursIn_append_of_right {p b : List Char} (a : List Char)
    (h : occursIn p b = true) : occursIn p (a ++ b) = true := by
  rw [occursIn_infix_iff] at h ⊢
  exact h.trans (List.suffix_append a b).isInfix

theorem occursIn_append_of_left {p a : List Char} (h : occursIn p a = true)
    (b : List Char) : occursIn p (a ++ b) = true := by
  rw [occursIn_infix_iff] at h ⊢
  exact h.trans (List.prefix_append a b).isInfix

theorem occursIn_of_isPrefixOf {p s : List Char} (h : p.isPrefixOf s = true) :
    occursIn p s = true := by
  rw [occursIn_infix_iff]
  exact (List.isPrefixOf_iff_prefix.mp h).isInfix

theorem occursIn_cons_of {p : List Char} (c : Char) {t : List Char}
    (h : occursIn p t = true) : occursIn p (c :: t) = true := by
  simp [occursIn, h]

/-- Decomposition of an occurrence in an append: the pattern lies in the
left part, in the right part, or straddles the boundary. -/
theorem occursIn_append_decomp {p : List Char} :
    ∀ {a b : List Char}, occursIn p (a ++ b) = true →
    occursIn p a = true ∨ occursIn p b = true ∨
      ∃ j, 0 < j ∧ j < p.length ∧ (p.take j).isSuffixOf a = true ∧
        (p.drop j).isPrefixOf b = true := by
  intro a
  induction a with
  | nil => intro b h; exact Or.inr (Or.inl h)
  | cons c a' ih =>
    intro b h
    rw [List.cons_append] at h
    rcases (Bool.or_eq_true _ _).mp h with h1 | h2
    · -- the pattern is a prefix of (c :: a') ++ b
      have hpre : p <+: (c :: a') ++ b := List.isPrefixOf_iff_prefix.mp h1
      by_cases hle : p.length ≤ (c :: a').length
      · left
        have : p = ((c :: a') ++ b).take p.length := List.prefix_iff_eq_take.mp hpre
        rw [List.take_append_eq_append_take] at this
        have h0 : p.length - (c :: a').length = 0 := by omega
        rw [h0, List.take_zero, List.append_nil] at this
        have : p <+: c :: a' := this ▸ List.take_prefix p.length (c :: a')
        rw [occursIn_infix_iff]
        exact this.isInfix
      · right; right
        push_neg at hle
        have hXpre : (c :: a') <+: (c :: a') ++ b := List.prefix_append _ _
        have hX : (c :: a') <+: p := by
          rcases List.prefix_or_prefix_of_prefix hpre hXpre with h | h
          · exact absurd h.length_le (by omega)
          · exact h
        obtain ⟨r, hr⟩ := hX
        refine ⟨(c :: a').length, by simp, by omega, ?_, ?_⟩
        · rw [← hr, List.take_left]
          exact List.isSuffixOf_iff_suffix.mpr (List.suffix_refl _)
        · obtain ⟨t, ht⟩ := hpre
          rw [← hr, List.drop_left]
          rw [← hr, List.append_assoc] at ht
          have := List.append_cancel_left ht
          exact List.isPrefixOf_iff_prefix.mpr ⟨t, this⟩
    · rcases ih h2 with h | h | ⟨j, hj0, hjl, hsuf, hpre⟩
      · exact Or.inl (occursIn_cons_of c h)
      · exact Or.inr (Or.inl h)
      · refine Or.inr (Or.inr ⟨j, hj0, hjl, ?_, hpre⟩)
        obtain ⟨t, ht⟩ := List.isSuffixOf_iff_suffix.mp hsuf
        exact List.isSuffixOf_iff_suffix.mpr ⟨c :: t, by simp [← ht]⟩

/-- If two lists are prefix-incompatible, the first is not a prefix of
any extension of the second. -/
theorem isPrefixOf_append_false : ∀ {x y : List Char} (u : List Char),
    x.isPrefixOf y = false → y.isPrefixOf x = false → x.isPrefixOf (y ++ u) = false
  | [], y, u, h1, h2 => by simp [List.isPrefixOf] at h1
  | a :: x', [], u, h1, h2 => by simp [List.isPrefixOf] at h2
  | a :: x', b :: y', u, h1, h2 => by
    simp only [List.isPrefixOf, Bool.and_eq_false_iff] at h1 h2 ⊢
    rcases h1 with h1 | h1
    · exact Or.inl h1
    · rcases h2 with h2 | h2
      · left
        cases hab : a == b
        · rfl
        · have hab2 : a = b := eq_of_beq hab
          subst hab2
          simp at h2
      · exact Or.inr (isPrefixOf_append_false u h1 h2)

/-- Replacement copies verbatim a leading block `P` inside which the
pattern cannot start. -/
theorem replaceCore_append_of_noStart (T R : List Char) :
    ∀ (P : List Char),
      (∀ i, i < P.length → T.isPrefixOf (P.drop i) = false ∧ (P.drop i).isPrefixOf T = false) →
      ∀ u, replaceCore T R (P ++ u) = P ++ replaceCore T R u := by
  intro P
  induction P with
  | nil => intro _ u; simp
  | cons d P' ih =>
    intro hs u
    have h0 := hs 0 (by simp)
    simp only [List.drop_zero] at h0
    have hfalse : T.isPrefixOf (d :: (P' ++ u)) = false := by
      have := isPrefixOf_append_false u h0.1 h0.2
      simpa using this
    rw [List.cons_append, replaceCore_cons, if_neg (fun hc => by
      rw [hfalse] at hc; exact absurd hc.1 (by simp))]
    rw [ih (fun i hi => by simpa using hs (i + 1) (by simpa using hi)) u]
    rfl

/-- An occurrence of `P` survives `s.replace(T, R)` when `T` cannot begin
inside `P`, cannot end inside `P`, and does not contain `P`. -/
theorem occursIn_replaceCore_of_occursIn (P T R : List Char)
    (hP : P ≠ []) (hT : T ≠ [])
    (hin : occursIn P T = false)
    (hstart : ∀ i, i < P.length → T.isPrefixOf (P.drop i) = false ∧ (P.drop i).isPrefixOf T = false)
    (htake : ∀ j, 0 < j → j < P.length → (P.take j).isSuffixOf T = false) :
    ∀ n s, s.length ≤ n → occursIn P s = true → occursIn P (replaceCore T R s) = true := by
  intro n
  induction n with
  | zero =>
    intro s hs h
    have hnil : s = [] := List.length_eq_zero.mp (by omega)
    subst hnil
    simp [occursIn, List.isEmpty_iff, hP] at h
  | succ n ih =>
    intro s hs h
    cases s with
    | nil => simp [occursIn, List.isEmpty_iff, hP] at h
    | cons c t =>
      by_cases hpre : T.isPrefixOf (c :: t) = true
      · obtain ⟨s', hs'⟩ := List.isPrefixOf_iff_prefix.mp hpre
        rw [replaceCore_cons, if_pos ⟨hpre, hT⟩]
        rw [← hs'] at h ⊢
        rw [List.drop_left]
        have hT1 : 1 ≤ T.length := by
          cases T with
          | nil => exact absurd rfl hT
          | cons a b => simp
        have hlen : s'.length ≤ n := by
          have hl := congrArg List.length hs'
          simp only [List.length_append, List.length_cons] at hl
          simp only [List.length_cons] at hs
          omega
        rcases occursIn_append_decomp h with h | h | ⟨j, hj0, hjl, hsuf, _⟩
        · rw [hin] at h; exact absurd h (by simp)
        · exact occursIn_append_of_right R (ih s' hlen h)
        · rw [htake j hj0 hjl] at hsuf; exact absurd hsuf (by simp)
      · have h' : P.isPrefixOf (c :: t) = true ∨ occursIn P t = true := by
          simpa [occursIn] using h
        rcases h' with h1 | h2
        · obtain ⟨u, hu⟩ := List.isPrefixOf_iff_prefix.mp h1
          rw [← hu, replaceCore_append_of_noStart T R P hstart u]
          exact occursIn_append_of_left
            (occursIn_of_isPrefixOf (List.isPrefixOf_iff_prefix.mpr (List.prefix_refl P))) _
        · rw [replaceCore_cons, if_neg (fun hc => hpre hc.1)]
          exact occursIn_cons_of c (ih t (by simpa using hs) h2)

/-- Auxiliary invariant for `occursIn_replaceCore_self`: after replacing
`pat` by `rep`, no occurrence of `pat` remains, and a proper suffix of
`pat` heads the result only if it already headed the input. -/
theorem replaceCore_no_pat_aux (pat rep : List Char)
    (hpat : pat ≠ [])
    (hrep : occursIn pat rep = false)
    (hdrop : ∀ j, 0 < j → j < pat.length →
      (pat.drop j).isPrefixOf rep = false ∧ rep.isPrefixOf (pat.drop j) = false)
    (htake : ∀ j, 0 < j → j < pat.length → (pat.take j).isSuffixOf rep = false) :
    ∀ n s, s.length ≤ n →
      occursIn pat (replaceCore pat rep s) = false ∧
      (∀ j, 0 < j → j < pat.length →
        (pat.drop j).isPrefixOf (replaceCore pat rep s) = true →
        (pat.drop j).isPrefixOf s = true) := by
  intro n
  induction n with
  | zero =>
    intro s hs
    have hnil : s = [] := List.length_eq_zero.mp (by omega)
    subst hnil
    constructor
    · simp [replaceCore_nil, occursIn, List.isEmpty_iff, hpat]
    · intro j hj0 hjl hpre
      simp [replaceCore_nil, List.isPrefixOf_iff_prefix, List.prefix_nil, List.drop_eq_nil_iff] at hpre
      omega
  | succ n ih =>
    intro s hs
    cases s with
    | nil =>
      constructor
      · simp [replaceCore_nil, occursIn, List.isEmpty_iff, hpat]
      · intro j hj0 hjl hpre
        simp [replaceCore_nil, List.isPrefixOf_iff_prefix, List.prefix_nil, List.drop_eq_nil_iff] at hpre
        omega
    | cons c t =>
      by_cases hpre : pat.isPrefixOf (c :: t) = true
      · obtain ⟨s', hs'⟩ := List.isPrefixOf_iff_prefix.mp hpre
        have hp1 : 1 ≤ pat.length := by
          cases pat with
          | nil => exact absurd rfl hpat
          | cons a b => simp
        have hlen : s'.length ≤ n := by
          have hl := congrArg List.length hs'
          simp only [List.length_append, List.length_cons] at hl
          simp only [List.length_cons] at hs
          omega
        have hrw : replaceCore pat rep (c :: t) = rep ++ replaceCore pat rep s' := by
          rw [replaceCore_cons, if_pos ⟨hpre, hpat⟩, ← hs', List.drop_left]
        rw [hrw]
        constructor
        · cases hocc : occursIn pat (rep ++ replaceCore pat rep s') with
          | false => rfl
          | true =>
            exfalso
            rcases occursIn_append_decomp hocc with h | h | ⟨j, hj0, hjl, hsuf, _⟩
            · rw [hrep] at h; exact absurd h (by simp)
            · rw [(ih s' hlen).1] at h; exact absurd h (by simp)
            · rw [htake j hj0 hjl] at hsuf; exact absurd hsuf (by simp)
        · intro j hj0 hjl hpre2
          exfalso
          have hd := hdrop j hj0 hjl
          have := isPrefixOf_append_false (replaceCore pat rep s') hd.1 hd.2
          rw [this] at hpre2
          exact absurd hpre2 (by simp)
      · have hrw : replaceCore pat rep (c :: t) = c :: replaceCore pat rep t := by
          rw [replaceCore_cons, if_neg (fun hc => hpre hc.1)]
        rw [hrw]
        have iht := ih t (by simpa using hs)
        constructor
        · have hocc : occursIn pat (c :: replaceCore pat rep t) =
              (pat.isPrefixOf (c :: replaceCore pat rep t) || occursIn pat (replaceCore pat rep t)) := by
            simp [occursIn]
          rw [hocc, iht.1, Bool.or_false]
          cases hp : pat.isPrefixOf (c :: replaceCore pat rep t) with
          | false => rfl
          | true =>
            exfalso
            cases hpd : pat with
            | nil => exact absurd hpd hpat
            | cons p0 pat1 =>
              rw [hpd] at hp
              simp only [List.isPrefixOf, Bool.and_eq_true] at hp
              have hp0 : p0 = c := eq_of_beq hp.1
              by_cases h1 : pat1 = []
              · subst h1
                apply hpre
                rw [hpd, hp0]
                simp [List.isPrefixOf]
              · have hlt : 1 < pat.length := by
                  rw [hpd]
                  cases pat1 with
                  | nil => exact absurd rfl h1
                  | cons a b => simp
                have hj := iht.2 1 (by omega) (by omega)
                rw [hpd] at hj
                simp only [List.drop_succ_cons, List.drop_zero] at hj
                have := hj hp.2
                apply hpre
                rw [hpd, hp0]
                simp [List.isPrefixOf, this]
        · intro j hj0 hjl hpre2
          have hjlen : j < pat.length := hjl
          have hdj : pat.drop j = pat[j] :: pat.drop (j + 1) := List.drop_eq_getElem_cons hjlen
          rw [hdj] at hpre2 ⊢
          simp only [List.isPrefixOf, Bool.and_eq_true] at hpre2 ⊢
          refine ⟨hpre2.1, ?_⟩
          by_cases hj1 : j + 1 < pat.length
          · exact iht.2 (j + 1) (by omega) hj1 hpre2.2
          · have : pat.drop (j + 1) = [] := by
              simp only [List.drop_eq_nil_iff]
              omega
            rw [this]
            simp [List.isPrefixOf]

/-- `s.replace(pat, rep)` leaves no occurrence of `pat` (under the
recombination side conditions). -/
theorem occursIn_replaceCore_self (pat rep : List Char)
    (hpat : pat ≠ [])
    (hrep : occursIn pat rep = false)
    (hdrop : ∀ j, 0 < j → j < pat.length →
      (pat.drop j).isPrefixOf rep = false ∧ rep.isPrefixOf (pat.drop j) = false)
    (htake : ∀ j, 0 < j → j < pat.length → (pat.take j).isSuffixOf rep = false)
    (s : List Char) :
    occursIn pat (replaceCore pat rep s) = false :=
  (replaceCore_no_pat_aux pat rep hpat hrep hdrop htake s.length s le_rfl).1

/-- When `pat` occurred, the replacement string occurs in the result. -/
theorem occursIn_rep_replaceCore (pat rep : List Char) (hpat : pat ≠ []) :
    ∀ s, occursIn pat s = true → occursIn rep (replaceCore pat rep s) = true := by
  intro s
  induction s with
  | nil => intro h; simp [occursIn, List.isEmpty_iff, hpat] at h
  | cons c t ih =>
    intro h
    by_cases hpre : pat.isPrefixOf (c :: t) = true
    · rw [replaceCore_cons, if_pos ⟨hpre, hpat⟩]
      exact occursIn_append_of_left
        (occursIn_of_isPrefixOf (List.isPrefixOf_iff_prefix.mpr (List.prefix_refl rep))) _
    · rw [replaceCore_cons, if_neg (fun hc => hpre hc.1)]
      have h' : pat.isPrefixOf (c :: t) = true ∨ occursIn pat t = true := by
        simpa [occursIn] using h
      rcases h' with h1 | h2
      · exact absurd h1 hpre
      · exact occursIn_cons_of c (ih h2)

/-- `s.replace(pat, rep)` is the identity when `pat` does not occur. -/
theorem replaceCore_of_not_occursIn (pat rep : List Char) :
    ∀ s, occursIn pat s = false → replaceCore pat rep s = s := by
  intro s
  induction s with
  | nil => intro _; simp [replaceCore_nil]
  | cons c t ih =>
    intro h
    have h' : pat.isPrefixOf (c :: t) = false ∧ occursIn pat t = false := by
      simpa [occursIn] using h
    rw [replaceCore_cons, if_neg (fun hc => absurd hc.1 (by simp [h'.1]))]
    rw [ih h'.2]

theorem splitCore_ne_nil (sep : List Char) : ∀ s, splitCore sep s ≠ [] := by
  intro s
  cases s with
  | nil => simp [splitCore_nil]
  | cons c t =>
    rw [splitCore_cons]
    split
    · simp
    · cases splitCore sep t <;> simp

theorem interCore_cons_cons (sep : List Char) (c : Char) (h : List Char)
    (r : List (List Char)) :
    interCore sep ((c :: h) :: r) = c :: interCore sep (h :: r) := by
  cases r with
  | nil => simp [interCore]
  | cons y r' => simp [interCore]

/-- `sep.join(s.split(sep)) == s`. -/
theorem interCore_splitCore (sep : List Char) (hsep : sep ≠ []) :
    ∀ n s, s.length ≤ n → interCore sep (splitCore sep s) = s := by
  intro n
  induction n with
  | zero =>
    intro s hs
    have : s = [] := List.length_eq_zero.mp (by omega)
    subst this
    simp [splitCore_nil, interCore]
  | succ n ih =>
    intro s hs
    cases s with
    | nil => simp [splitCore_nil, interCore]
    | cons c t =>
      by_cases hpre : sep.isPrefixOf (c :: t) = true
      · obtain ⟨s', hs'⟩ := List.isPrefixOf_iff_prefix.mp hpre
        have hsep1 : 1 ≤ sep.length := by
          cases sep with
          | nil => exact absurd rfl hsep
          | cons a b => simp
        have hlen : s'.length ≤ n := by
          have hl := congrArg List.length hs'
          simp only [List.length_append, List.length_cons] at hl
          simp only [List.length_cons] at hs
          omega
        rw [splitCore_cons, if_pos ⟨hpre, hsep⟩, ← hs', List.drop_left]
        cases hsp : splitCore sep s' with
        | nil => exact absurd hsp (splitCore_ne_nil sep s')
        | cons x r =>
          rw [← hsp]
          have : interCore sep ([] :: splitCore sep s') =
              [] ++ sep ++ interCore sep (splitCore sep s') := by
            rw [hsp]; simp [interCore]
          rw [this, ih s' hlen]
          simp
      · rw [splitCore_cons, if_neg (fun hc => hpre hc.1)]
        cases hsp : splitCore sep t with
        | nil => exact absurd hsp (splitCore_ne_nil sep t)
        | cons x r =>
          rw [interCore_cons_cons]
          rw [← hsp, ih t (by simpa using hs)]

/-- A member of the joined parts occurs in the join. -/
theorem occursIn_interCore_of_mem (P sep : List Char) :
    ∀ parts part, part ∈ parts → occursIn P part = true →
      occursIn P (interCore sep parts) = true := by
  intro parts
  induction parts with
  | nil => intro part hmem; exact absurd hmem (List.not_mem_nil part)
  | cons x rest ih =>
    intro part hmem hocc
    rcases List.mem_cons.mp hmem with rfl | hmem'
    · cases rest with
      | nil => simpa [interCore] using hocc
      | cons y r =>
        rw [interCore, List.append_assoc]
        exact occursIn_append_of_left hocc _
    · cases rest with
      | nil => exact absurd hmem' (List.not_mem_nil part)
      | cons y r =>
        rw [interCore, List.append_assoc]
        exact occursIn_append_of_right x (occursIn_append_of_right sep (ih part hmem' hocc))

/-- A pattern free of the separator characters that occurs in a join
occurs in one of the parts. -/
theorem occursIn_interCore_exists (P sep : List Char)
    (hP : P ≠ [])
    (hin : occursIn P sep = false)
    (htake : ∀ j, 0 < j → j < P.length → (P.take j).isSuffixOf sep = false)
    (hdrop : ∀ j, 0 < j → j < P.length →
      (P.drop j).isPrefixOf sep = false ∧ sep.isPrefixOf (P.drop j) = false) :
    ∀ parts, occursIn P (interCore sep parts) = true →
      ∃ part ∈ parts, occursIn P part = true := by
  intro parts
  induction parts with
  | nil => intro h; simp [interCore, occursIn, List.isEmpty_iff, hP] at h
  | cons x rest ih =>
    intro h
    cases rest with
    | nil => exact ⟨x, List.mem_singleton_self x, by simpa [interCore] using h⟩
    | cons y r =>
      rw [interCore, List.append_assoc] at h
      rcases occursIn_append_decomp h with h1 | h1 | ⟨j, hj0, hjl, _, hpre⟩
      · exact ⟨x, List.mem_cons_self x _, h1⟩
      · rcases occursIn_append_decomp h1 with h2 | h2 | ⟨j, hj0, hjl, hsuf, _⟩
        · rw [hin] at h2; exact absurd h2 (by simp)
        · obtain ⟨part, hmem, hocc⟩ := ih h2
          exact ⟨part, List.mem_cons_of_mem x hmem, hocc⟩
        · rw [htake j hj0 hjl] at hsuf; exact absurd hsuf (by simp)
      · have hd := hdrop j hj0 hjl
        rw [isPrefixOf_append_false _ hd.1 hd.2] at hpre
        exact absurd hpre (by simp)

/-- An occurrence of an all-non-whitespace pattern survives stripping a
leading whitespace run. -/
theorem occursIn_dropWhile_pyWs (P : List Char) (hP : P ≠ [])
    (hws : P.all (fun c => !pyWs c) = true) :
    ∀ l, occursIn P l = true → occursIn P (l.dropWhile pyWs) = true := by
  intro l
  induction l with
  | nil => intro h; simpa [occursIn] using h
  | cons c t ih =>
    intro h
    cases hc : pyWs c with
    | false => rwa [List.dropWhile_cons, hc, if_neg (by simp)]
    | true =>
      rw [List.dropWhile_cons, hc, if_pos rfl]
      have h' : P.isPrefixOf (c :: t) = true ∨ occursIn P t = true := by
        simpa [occursIn] using h
      rcases h' with h1 | h2
      · exfalso
        cases hPc : P with
        | nil => exact hP hPc
        | cons p0 P1 =>
          rw [hPc] at h1 hws
          simp only [List.isPrefixOf, Bool.and_eq_true] at h1
          have : p0 = c := eq_of_beq h1.1
          subst this
          simp [List.all_cons, hc] at hws
      · exact ih h2

/-- An occurrence of an all-non-whitespace pattern survives `strip()`. -/
theorem occursIn_stripCore (P : List Char) (hP : P ≠ [])
    (hws : P.all (fun c => !pyWs c) = true) :
    ∀ l, occursIn P l = true → occursIn P (stripCore l) = true := by
  intro l h
  have h1 : occursIn P (l.dropWhile pyWs) = true := occursIn_dropWhile_pyWs P hP hws l h
  have h2 : P <:+: l.dropWhile pyWs := (occursIn_infix_iff P _).mp h1
  have h3 : P.reverse <:+: (l.dropWhile pyWs).reverse := List.reverse_infix.mpr h2
  have h4 : occursIn P.reverse ((l.dropWhile pyWs).reverse) = true :=
    (occursIn_infix_iff _ _).mpr h3
  have h5 : occursIn P.reverse ((l.dropWhile pyWs).reverse.dropWhile pyWs) = true :=
    occursIn_dropWhile_pyWs P.reverse (by simpa using hP) (by rwa [List.all_reverse]) _ h4
  have h6 : P.reverse <:+: (l.dropWhile pyWs).reverse.dropWhile pyWs :=
    (occursIn_infix_iff _ _).mp h5
  have h7 : P <:+: ((l.dropWhile pyWs).reverse.dropWhile pyWs).reverse := by
    rw [← List.reverse_reverse P]
    exact List.reverse_infix.mpr h6
  exact (occursIn_infix_iff _ _).mpr h7

/-- No whitespace character belongs to an all-non-whitespace pattern
that is a sub-collection of the given list. -/
theorem no_ws_char_of_all {P : List Char}
    (hws : P.all (fun c => !pyWs c) = true) {c : Char} (hc : pyWs c = true) :
    c ∉ P := by
  intro hmem
  have := List.all_eq_true.mp hws c hmem
  rw [hc] at this
  simp at this

/-- An occurrence of an all-non-whitespace pattern survives the
line-by-line strip normalisation of the assembler. -/
theorem occursIn_normalize (P : List Char) (hP : P ≠ [])
    (hws : P.all (fun c => !pyWs c) = true) :
    ∀ s, occursIn P s = true →
      occursIn P (interCore ['\n'] ((splitCore ['\n'] s).map stripCore)) = true := by
  intro s h
  have hnl : pyWs '\n' = true := by decide
  have hsep_in : occursIn P ['\n'] = false := by
    cases hocc : occursIn P ['\n'] with
    | false => rfl
    | true =>
      exfalso
      have := (occursIn_infix_iff P _).mp hocc
      have hsub := this.sublist.subset
      cases hPc : P with
      | nil => exact hP hPc
      | cons p0 P1 =>
        have hp0 : p0 ∈ P := by rw [hPc]; exact List.mem_cons_self _ _
        have hmem := hsub hp0
        simp only [List.mem_singleton] at hmem
        subst hmem
        exact no_ws_char_of_all hws hnl hp0
  have htake : ∀ j, 0 < j → j < P.length → (P.take j).isSuffixOf ['\n'] = false := by
    intro j hj0 hjl
    cases hsuf : (P.take j).isSuffixOf ['\n'] with
    | false => rfl
    | true =>
      exfalso
      have hsx := (List.isSuffixOf_iff_suffix.mp hsuf).sublist.subset
      have hne : P.take j ≠ [] := by
        have hlt : (P.take j).length = j := by
          rw [List.length_take]
          omega
        intro hcontra
        rw [hcontra] at hlt
        simp at hlt
        omega
      cases htk : P.take j with
      | nil => exact hne htk
      | cons a b =>
        have ha : a ∈ P.take j := by rw [htk]; exact List.mem_cons_self _ _
        have := hsx (by rw [htk]; exact List.mem_cons_self _ _)
        simp only [List.mem_singleton] at this
        subst this
        exact no_ws_char_of_all hws hnl (List.take_subset j P ha)
  have hdrop : ∀ j, 0 < j → j < P.length →
      (P.drop j).isPrefixOf ['\n'] = false ∧ ['\n'].isPrefixOf (P.drop j) = false := by
    intro j hj0 hjl
    have hne : P.drop j ≠ [] := by
      simp only [ne_eq, List.drop_eq_nil_iff]
      omega
    cases hd : P.drop j with
    | nil => exact absurd hd hne
    | cons a b =>
      have ha : a ∈ P := List.drop_subset j P (by rw [hd]; exact List.mem_cons_self _ _)
      constructor
      · cases hx : (a :: b).isPrefixOf ['\n'] with
        | false => rfl
        | true =>
          exfalso
          simp only [List.isPrefixOf, Bool.and_eq_true] at hx
          have : a = '\n' := eq_of_beq hx.1
          subst this
          exact no_ws_char_of_all hws hnl ha
      · cases hx : (['\n'] : List Char).isPrefixOf (a :: b) with
        | false => rfl
        | true =>
          exfalso
          simp only [List.isPrefixOf, Bool.and_eq_true] at hx
          have : '\n' = a := eq_of_beq hx.1
          subst this
          exact no_ws_char_of_all hws hnl ha
  have hround : interCore ['\n'] (splitCore ['\n'] s) = s :=
    interCore_splitCore ['\n'] (by simp) s.length s le_rfl
  rw [← hround] at h
  obtain ⟨part, hmem, hocc⟩ :=
    occursIn_interCore_exists P ['\n'] hP hsep_in htake hdrop (splitCore ['\n'] s) h
  exact occursIn_interCore_of_mem P ['\n'] _ (stripCore part)
    (List.mem_map_of_mem stripCore hmem) (occursIn_stripCore P hP hws part hocc)

/-! String-level corollaries. -/

theorem pyIn_append_of_right (pat a b : String) (h : pyIn pat b = true) :
    pyIn pat (a ++ b) = true := by
  unfold pyIn at h ⊢
  rw [String.data_append a b]
  exact occursIn_append_of_right a.data h

theorem pyIn_append_of_left (pat a b : String) (h : pyIn pat a = true) :
    pyIn pat (a ++ b) = true := by
  unfold pyIn at h ⊢
  rw [String.data_append a b]
  exact occursIn_append_of_left h b.data

theorem occursIn_append_false (p : List Char) {a b : List Char}
    (ha : occursIn p a = false) (hb : occursIn p b = false)
    (hstrad : ∀ j, 0 < j → j < p.length → (p.drop j).isPrefixOf b = false) :
    occursIn p (a ++ b) = false := by
  cases hocc : occursIn p (a ++ b) with
  | false => rfl
  | true =>
    exfalso
    rcases occursIn_append_decomp hocc with h1 | h1 | ⟨j, hj0, hjl, _, hpre⟩
    · rw [ha] at h1; exact absurd h1 (by simp)
    · rw [hb] at h1; exact absurd h1 (by simp)
    · rw [hstrad j hj0 hjl] at hpre; exact absurd hpre (by simp)

/-- Reorder bounded-quantifier hypotheses so that `decide` can discharge
them via the decidable bounded-forall instance. -/
theorem forall_lt_swap {n : Nat} {P : Nat → Prop} (h : ∀ j, j < n → 0 < j → P j) :
    ∀ j, 0 < j → j < n → P j := fun j h0 hl => h j hl h0

/-- After `tasks.replace("neb", "string")` no `neb` remains. -/
theorem no_neb_after_swap (s : String) :
    pyIn "neb" (pyReplace s "neb" "string") = false :=
  occursIn_replaceCore_self "neb".data "string".data
    (by decide) (by decide) (forall_lt_swap (by decide)) (forall_lt_swap (by decide)) s.data

/-- If `neb` occurred, the swap introduces `string`. -/
theorem string_after_swap (s : String) (h : pyIn "neb" s = true) :
    pyIn "string" (pyReplace s "neb" "string") = true :=
  occursIn_rep_replaceCore "neb".data "string".data (by decide) s.data h

/-- The swap is the identity when `neb` does not occur. -/
theorem swap_id_of_no_neb (s : String) (h : pyIn "neb" s = false) :
    pyReplace s "neb" "string" = s := by
  unfold pyReplace
  rw [replaceCore_of_not_occursIn _ _ s.data h]

/-- An occurrence of `string` survives the `neb`-to-`string` swap. -/
theorem string_survives_swap (s : String) (h : pyIn "string" s = true) :
    pyIn "string" (pyReplace s "neb" "string") = true :=
  occursIn_replaceCore_of_occursIn "string".data "neb".data "string".data
    (by decide) (by decide) (by decide) (by decide) (forall_lt_swap (by decide))
    s.data.length s.data le_rfl h

/-- An occurrence of the solvent-density directive survives the textual
splice a `sol(...)` specification performs on the solvation block. -/
theorem smd_survives_sol_insert (s rep : String) (h : pyIn "do_cosmo_smd" s = true) :
    pyIn "do_cosmo_smd" (pyReplace s "cosmo \n" rep) = true :=
  occursIn_replaceCore_of_occursIn "do_cosmo_smd".data "cosmo \n".data rep.data
    (by decide) (by decide) (by decide) (by decide) (forall_lt_swap (by decide))
    s.data.length s.data le_rfl h

/-- Appending the closing marker cannot introduce `neb`. -/
theorem no_neb_append_end (a : String) (h : pyIn "neb" a = false) :
    pyIn "neb" (a ++ " end \n") = false := by
  unfold pyIn at h ⊢
  rw [String.data_append a " end \n"]
  exact occursIn_append_false "neb".data h (by decide) (forall_lt_swap (by decide))

theorem normalize_lines_data (s : String) :
    (normalize_lines s).data = interCore ['\n'] ((splitCore ['\n'] s.data).map stripCore) := by
  unfold normalize_lines pyJoin pySplitOn pyStrip
  simp only [List.map_map]
  congr 1

/-- The solvent-density directive survives the line normalisation of the
assembler. -/
theorem smd_survives_normalize (s : String) (h : pyIn "do_cosmo_smd" s = true) :
    pyIn "do_cosmo_smd" (normalize_lines s) = true := by
  unfold pyIn at h ⊢
  rw [normalize_lines_data]
  exact occursIn_normalize "do_cosmo_smd".data (by decide) (by decide) s.data h

/-! ## Frame lemmas for the pipeline stages -/

theorem handle_tasks_preserves (env : Env) (st : St) :
    (handle_tasks env st).calc_ = st.calc_ ∧
    (handle_tasks env st).additional_block = st.additional_block ∧
    (handle_tasks env st).basis_set = st.basis_set ∧
    (handle_tasks env st).xyz_structure = st.xyz_structure ∧
    (handle_tasks env st).warnings = st.warnings ∧
    (handle_tasks env st).input_file = st.input_file ∧
    (handle_tasks env st).side_file = st.side_file ∧
    (handle_tasks env st).solvation_radii = st.solvation_radii := by
  unfold handle_tasks
  exact ⟨rfl, rfl, rfl, rfl, rfl, rfl, rfl, rfl⟩

theorem handle_solvation_ok_preserves (env : Env) (st st' : St)
    (h : handle_solvation env st = .ok st') :
    st'.calc_ = st.calc_ ∧ st'.tasks = st.tasks ∧ st'.method_block = st.method_block ∧
    st'.calculation_block = st.calculation_block ∧ st'.basis_set = st.basis_set ∧
    st'.xyz_structure = st.xyz_structure ∧ st'.input_file = st.input_file := by
  simp only [handle_solvation] at h
  split at h
  · cases h
    exact ⟨rfl, rfl, rfl, rfl, rfl, rfl, rfl⟩
  · split at h
    · exact absurd h (by simp)
    · rename_i st3 heq
      split at h
      · exact absurd h (by simp)
      · split at h
        · split at h
          · exact absurd h (by simp)
          · cases h
            revert heq
            split
            · intro heq
              cases heq
              exact ⟨rfl, rfl, rfl, rfl, rfl, rfl, rfl⟩
            · split
              · split
                · intro heq
                  exact absurd heq (by simp)
                · intro heq
                  cases heq
                  exact ⟨rfl, rfl, rfl, rfl, rfl, rfl, rfl⟩
              · intro heq
                exact absurd heq (by simp)
        · cases h
          revert heq
          split
          · intro heq
            cases heq
            exact ⟨rfl, rfl, rfl, rfl, rfl, rfl, rfl⟩
          · split
            · split
              · intro heq
                exact absurd heq (by simp)
              · intro heq
                cases heq
                exact ⟨rfl, rfl, rfl, rfl, rfl, rfl, rfl⟩
            · intro heq
              exact absurd heq (by simp)

set_option maxHeartbeats 1000000 in
theorem specStep_preserves (st : St) (temp spec : String) :
    (specStep st temp spec).1.calc_ = st.calc_ ∧
    (specStep st temp spec).1.basis_set = st.basis_set ∧
    (specStep st temp spec).1.xyz_structure = st.xyz_structure ∧
    (specStep st temp spec).1.warnings = st.warnings ∧
    (specStep st temp spec).1.input_file = st.input_file ∧
    (specStep st temp spec).1.side_file = st.side_file ∧
    (specStep st temp spec).1.solvation_radii = st.solvation_radii := by
  unfold specStep
  cases parenMatch spec with
  | none =>
    dsimp only
    split_ifs <;> exact ⟨rfl, rfl, rfl, rfl, rfl, rfl, rfl⟩
  | some bc =>
    obtain ⟨bn, cmd⟩ := bc
    dsimp only
    split_ifs <;> exact ⟨rfl, rfl, rfl, rfl, rfl, rfl, rfl⟩

theorem specFold_preserves : ∀ (toks : List String) (st : St) (temp : String),
    (specFold st temp toks).1.calc_ = st.calc_ ∧
    (specFold st temp toks).1.basis_set = st.basis_set ∧
    (specFold st temp toks).1.xyz_structure = st.xyz_structure ∧
    (specFold st temp toks).1.warnings = st.warnings ∧
    (specFold st temp toks).1.input_file = st.input_file ∧
    (specFold st temp toks).1.side_file = st.side_file ∧
    (specFold st temp toks).1.solvation_radii = st.solvation_radii := by
  intro toks
  induction toks with
  | nil => intro st temp; exact ⟨rfl, rfl, rfl, rfl, rfl, rfl, rfl⟩
  | cons spec rest ih =>
    intro st temp
    have h1 := specStep_preserves st temp spec
    have h2 := ih (specStep st temp spec).1 (specStep st temp spec).2
    unfold specFold
    exact ⟨h2.1.trans h1.1, h2.2.1.trans h1.2.1, h2.2.2.1.trans h1.2.2.1,
      h2.2.2.2.1.trans h1.2.2.2.1, h2.2.2.2.2.1.trans h1.2.2.2.2.1,
      h2.2.2.2.2.2.1.trans h1.2.2.2.2.2.1, h2.2.2.2.2.2.2.trans h1.2.2.2.2.2.2⟩

set_option maxHeartbeats 1000000 in
theorem handle_specifications_ok_preserves (st st' : St)
    (h : handle_specifications st = .ok st') :
    st'.calc_ = st.calc_ ∧ st'.basis_set = st.basis_set ∧
    st'.xyz_structure = st.xyz_structure ∧ st'.warnings = st.warnings ∧
    st'.input_file = st.input_file ∧ st'.side_file = st.side_file ∧
    st'.solvation_radii = st.solvation_radii := by
  have hf := specFold_preserves (specTokens st.calc_.parameters.specifications) st "\n"
  simp only [handle_specifications] at h
  split at h
  · split at h
    · exact absurd h (by simp)
    · injection h with h
      subst h
      exact ⟨hf.1, hf.2.1, hf.2.2.1, hf.2.2.2.1, hf.2.2.2.2.1, hf.2.2.2.2.2.1, hf.2.2.2.2.2.2⟩
  · injection h with h
    subst h
    exact ⟨hf.1, hf.2.1, hf.2.2.1, hf.2.2.2.1, hf.2.2.2.2.1, hf.2.2.2.2.2.1, hf.2.2.2.2.2.2⟩

theorem handle_xyz_preserves (env : Env) (st : St) :
    (handle_xyz env st).calc_ = st.calc_ ∧
    (handle_xyz env st).tasks = st.tasks ∧
    (handle_xyz env st).method_block = st.method_block ∧
    (handle_xyz env st).calculation_block = st.calculation_block ∧
    (handle_xyz env st).additional_block = st.additional_block ∧
    (handle_xyz env st).basis_set = st.basis_set ∧
    (handle_xyz env st).warnings = st.warnings ∧
    (handle_xyz env st).input_file = st.input_file ∧
    (handle_xyz env st).side_file = st.side_file ∧
    (handle_xyz env st).solvation_radii = st.solvation_radii := by
  unfold handle_xyz
  exact ⟨rfl, rfl, rfl, rfl, rfl, rfl, rfl, rfl, rfl, rfl⟩

theorem parse_custom_basis_set_ok_preserves (env : Env) (base_bs : String) (st st' : St)
    (h : parse_custom_basis_set env base_bs st = .ok st') :
    st'.calc_ = st.calc_ ∧ st'.tasks = st.tasks ∧ st'.method_block = st.method_block ∧
    st'.calculation_block = st.calculation_block ∧
    st'.additional_block = st.additional_block ∧
    st'.xyz_structure = st.xyz_structure ∧ st'.input_file = st.input_file ∧
    st'.side_file = st.side_file ∧ st'.solvation_radii = st.solvation_radii := by
  simp only [parse_custom_basis_set] at h
  split at h
  · exact absurd h (by simp)
  · injection h with h
    subst h
    exact ⟨rfl, rfl, rfl, rfl, rfl, rfl, rfl, rfl, rfl⟩

theorem handle_basis_sets_ok_preserves (env : Env) (st st' : St)
    (h : handle_basis_sets env st = .ok st') :
    st'.calc_ = st.calc_ ∧ st'.tasks = st.tasks ∧ st'.method_block = st.method_block ∧
    st'.calculation_block = st.calculation_block ∧
    st'.additional_block = st.additional_block ∧
    st'.xyz_structure = st.xyz_structure ∧ st'.input_file = st.input_file ∧
    st'.side_file = st.side_file ∧ st'.solvation_radii = st.solvation_radii := by
  simp only [handle_basis_sets] at h
  split at h
  · injection h with h
    subst h
    exact ⟨rfl, rfl, rfl, rfl, rfl, rfl, rfl, rfl, rfl⟩
  · split at h
    · exact parse_custom_basis_set_ok_preserves env _ st st' h
    · exact absurd h (by simp)

theorem close_blocks_preserves (st : St) :
    (close_blocks st).calc_ = st.calc_ ∧
    (close_blocks st).tasks = st.tasks ∧
    (close_blocks st).basis_set = st.basis_set ∧
    (close_blocks st).xyz_structure = st.xyz_structure ∧
    (close_blocks st).warnings = st.warnings ∧
    (close_blocks st).input_file = st.input_file ∧
    (close_blocks st).side_file = st.side_file ∧
    (close_blocks st).solvation_radii = st.solvation_radii := by
  unfold close_blocks
  exact ⟨rfl, rfl, rfl, rfl, rfl, rfl, rfl, rfl⟩

theorem create_input_file_preserves (st : St) :
    (create_input_file st).calc_ = st.calc_ ∧
    (create_input_file st).tasks = st.tasks ∧
    (create_input_file st).method_block = st.method_block ∧
    (create_input_file st).calculation_block = st.calculation_block ∧
    (create_input_file st).additional_block = st.additional_block ∧
    (create_input_file st).basis_set = st.basis_set ∧
    (create_input_file st).xyz_structure = st.xyz_structure ∧
    (create_input_file st).warnings = st.warnings ∧
    (create_input_file st).side_file = st.side_file ∧
    (create_input_file st).solvation_radii = st.solvation_radii := by
  unfold create_input_file
  exact ⟨rfl, rfl, rfl, rfl, rfl, rfl, rfl, rfl, rfl, rfl⟩

/-! ## Claims -/

/-- One component of the Block Closer, applied twice, equals itself
applied once. -/
theorem close_marker_idem (g : String → Bool) (add b : String)
    (hadd : pyIn "end \n" add = true) :
    (if !(pyIn "end \n" (if !(pyIn "end \n" b) && g b then b ++ add else b)) &&
        g (if !(pyIn "end \n" b) && g b then b ++ add else b) then
      (if !(pyIn "end \n" b) && g b then b ++ add else b) ++ add
     else (if !(pyIn "end \n" b) && g b then b ++ add else b)) =
    (if !(pyIn "end \n" b) && g b then b ++ add else b) := by
  by_cases h : (!(pyIn "end \n" b) && g b) = true
  · simp only [if_pos h]
    have hIn : pyIn "end \n" (b ++ add) = true := pyIn_append_of_right _ b add hadd
    rw [if_neg]
    simp [hIn]
  · simp only [if_neg h]

/-- C9 (confirmed): the Block Closer is idempotent: for any state of the
method, calculation-type, and ancillary buffers, running `close_blocks`
twice in sequence yields exactly the same buffer contents as running it
once. -/
theorem c9_close_blocks_idempotent (st : St) :
    close_blocks (close_blocks st) = close_blocks st := by
  unfold close_blocks
  simp only [St.mk.injEq, and_true, true_and]
  refine ⟨?_, ?_, ?_⟩
  · exact close_marker_idem (fun x => x != "") " end \n" st.method_block (by decide)
  · exact close_marker_idem (fun x => x != "") " end \n" st.calculation_block (by decide)
  · exact close_marker_idem (fun x => clean x != "") "end \n" st.additional_block (by decide)

set_option maxRecDepth 4000 in
/-- C1 (code_bug): for a request whose basis-set name resolves to the
empty string and whose custom per-element basis-set dict is empty,
generation does not fail with `MissingParameter`: the comparison
`custom_basis_sets != ''` (dict vs. string) is always true in Python, so
the custom-splice path runs and its fallback emits a basis block with an
empty library reference.  The `MissingParameter` branch is dead code. -/
theorem c1_empty_basis_generation_succeeds :
    (gen envW calcNoBasis).toOption.map (fun st => st.basis_set) =
      some (some "basis \n * library  \n end") := by decide

set_option maxRecDepth 4000 in
/-- C2 (counterexample): the unrecognized parenthesized token `foo(bar)`
is dropped: the ancillary buffer stays empty and the argument text
appears nowhere in the final document. -/
theorem c2_unknown_token_dropped_counterexample :
    (gen envW calcUnknownToken).toOption.map
      (fun st => (st.additional_block, pyIn "bar" st.input_file)) =
      some ("", false) := by decide

set_option maxHeartbeats 4000000 in
/-- C2 (amended): a parenthesized specification token is dispatched to at
most one buffer (method, calculation-type, ancillary, task, or the
OPTFREQ frequency buffer); a token whose block name is not recognized for
the calculation type and theory level leaves the state entirely
unchanged — it is silently discarded, not appended to the ancillary
buffer. -/
theorem c2_paren_token_dispatch (st : St) (temp spec bn cmd : String)
    (hp : parenMatch spec = some (bn, cmd)) :
    (recognizedBlock st.calc_.type st.calc_.parameters.theory_level bn = false →
      specStep st temp spec = (st, temp)) ∧
    (specStep st temp spec =
        ({ st with method_block := (specStep st temp spec).1.method_block }, temp) ∨
     specStep st temp spec =
        ({ st with calculation_block := (specStep st temp spec).1.calculation_block }, temp) ∨
     specStep st temp spec =
        ({ st with additional_block := (specStep st temp spec).1.additional_block }, temp) ∨
     specStep st temp spec =
        ({ st with tasks := (specStep st temp spec).1.tasks }, temp) ∨
     (specStep st temp spec).1 = st) := by
  unfold specStep
  rw [hp]
  dsimp only
  constructor
  · intro hrec
    split_ifs <;>
      first
        | rfl
        | (exfalso
           revert hrec
           simp_all only [recognizedBlock, Bool.or_eq_true, Bool.and_eq_true,
             Bool.or_eq_false_iff, Bool.and_eq_false_iff, Bool.eq_false_iff,
             beq_iff_eq, ne_eq]
           tauto)
  · split_ifs <;>
      first
        | exact Or.inl rfl
        | exact Or.inr (Or.inl rfl)
        | exact Or.inr (Or.inr (Or.inl rfl))
        | exact Or.inr (Or.inr (Or.inr (Or.inl rfl)))
        | exact Or.inr (Or.inr (Or.inr (Or.inr rfl)))

/-- C2 (amended, witness). -/
theorem c2_paren_token_dispatch_witness :
    parenMatch "foo(bar)" = some ("foo", "bar") ∧
    (recognizedBlock stC3.calc_.type stC3.calc_.parameters.theory_level "foo" = false →
      specStep stC3 "\n" "foo(bar)" = (stC3, "\n")) := by
  refine ⟨by decide, ?_⟩
  exact (c2_paren_token_dispatch stC3 "\n" "foo(bar)" "foo" "bar" (by decide)).1

set_option maxRecDepth 4000 in
/-- C3 (counterexample): for a constrained optimization with one
constraint, the ancillary buffer after generation is non-empty yet
contains two closing markers (the constraint sub-block is doubly nested),
not exactly one. -/
theorem c3_two_markers_counterexample :
    (gen envW calcConstr).toOption.map
      (fun st => (countOcc "end \n" st.additional_block, st.additional_block == "")) =
      some (2, false) := by decide

/-- One component of the Block Closer guarantees a closing marker
whenever the guard holds of the closed value. -/
theorem close_marker_ensures (g : String → Bool) (add b : String)
    (hadd : pyIn "end \n" add = true)
    (hg : g (if !(pyIn "end \n" b) && g b then b ++ add else b) = true) :
    pyIn "end \n" (if !(pyIn "end \n" b) && g b then b ++ add else b) = true := by
  by_cases h : (!(pyIn "end \n" b) && g b) = true
  · rw [if_pos h]
    exact pyIn_append_of_right _ b add hadd
  · rw [if_neg h] at hg ⊢
    have h' : (!(pyIn "end \n" b) && g b) = false := by
      revert h
      cases (!(pyIn "end \n" b) && g b) <;> simp
    rcases Bool.and_eq_false_iff.mp h' with h1 | h1
    · simpa using h1
    · rw [hg] at h1
      exact absurd h1 (by simp)

/-- C3 (amended): after the Block Closer has run, every non-empty buffer
among the method and calculation-type buffers, and the ancillary buffer
whenever its sanitized content is non-empty, contains at least one
closing marker; a buffer may contain more than one (see the
counterexample). -/
theorem c3_close_blocks_markers (st : St) :
    ((close_blocks st).method_block ≠ "" →
      pyIn "end \n" (close_blocks st).method_block = true) ∧
    ((close_blocks st).calculation_block ≠ "" →
      pyIn "end \n" (close_blocks st).calculation_block = true) ∧
    (clean (close_blocks st).additional_block ≠ "" →
      pyIn "end \n" (close_blocks st).additional_block = true) := by
  unfold close_blocks
  refine ⟨fun hm => ?_, fun hc => ?_, fun ha => ?_⟩
  · refine close_marker_ensures (fun x => x != "") " end \n" st.method_block (by decide) ?_
    simpa using hm
  · refine close_marker_ensures (fun x => x != "") " end \n" st.calculation_block (by decide) ?_
    simpa using hc
  · refine close_marker_ensures (fun x => clean x != "") "end \n" st.additional_block (by decide) ?_
    simpa using ha

/-- C3 (amended, witness). -/
theorem c3_close_blocks_markers_witness :
    pyIn "end \n" (close_blocks stC3).method_block = true ∧
    pyIn "end \n" (close_blocks stC3).calculation_block = true ∧
    pyIn "end \n" (close_blocks stC3).additional_block = true :=
  ⟨(c3_close_blocks_markers stC3).1 (by decide),
   (c3_close_blocks_markers stC3).2.1 (by decide),
   (c3_close_blocks_markers stC3).2.2 (by decide)⟩

set_option maxRecDepth 4000 in
/-- C4 (counterexample): generation does not act on local copies: after a
successful run on a Hartree-Fock request, the shared request object
carries a different memory field (" mb" appended) and a different theory
level ("scf") than before generation. -/
theorem c4_request_mutation_counterexample :
    (gen envW calcHF).toOption.map
      (fun st => (st.calc_.mem, st.calc_.parameters.theory_level)) =
        some ("1000 mb", "scf") ∧
    calcHF.mem = "1000" ∧ calcHF.parameters.theory_level = "hf" := by decide

/-- C4 (amended): generation mutates the caller's request object, and by
exactly the two construction-time normalizations: after a successful run
the shared request holds the " mb"-suffixed memory field and the aliased
theory level, every other field unchanged. -/
theorem c4_generation_mutates_request (env : Env) (c0 : Calculation) (st : St)
    (h : gen env c0 = .ok st) :
    st.calc_ = { c0 with
      mem := c0.mem ++ " mb"
      parameters := aliasParameters c0.parameters } := by
  simp only [gen] at h
  split at h
  · exact absurd h (by simp)
  · cases hs : handle_solvation env (handle_tasks env (initSt c0)) with
    | error e => rw [hs] at h; exact absurd h (by simp)
    | ok st2 =>
      rw [hs] at h
      dsimp only at h
      cases hsp : handle_specifications st2 with
      | error e => rw [hsp] at h; exact absurd h (by simp)
      | ok st3 =>
        rw [hsp] at h
        dsimp only at h
        cases hb : handle_basis_sets env (handle_xyz env st3) with
        | error e => rw [hb] at h; exact absurd h (by simp)
        | ok st5 =>
          rw [hb] at h
          dsimp only at h
          injection h with h
          subst h
          have e2 := (handle_tasks_preserves env (initSt c0)).1
          have e3 := (handle_solvation_ok_preserves env _ _ hs).1
          have e4 := (handle_specifications_ok_preserves _ _ hsp).1
          have e5 := (handle_xyz_preserves env st3).1
          have e6 := (handle_basis_sets_ok_preserves env _ _ hb).1
          have e7 := (close_blocks_preserves st5).1
          have e8 := (create_input_file_preserves (close_blocks st5)).1
          rw [e8, e7, e6, e5, e4, e3, e2]
          rfl

/-- C4 (amended, witness). -/
theorem c4_generation_mutates_request_witness :
    (gen envW calcHF).toOption.map (fun st => st.calc_) =
      some { calcHF with
        mem := calcHF.mem ++ " mb"
        parameters := aliasParameters calcHF.parameters } := by
  cases hg : gen envW calcHF with
  | error e =>
    have hok : (gen envW calcHF).toOption.isSome = true := by decide
    rw [hg] at hok
    simp [Except.toOption] at hok
  | ok st =>
    simp only [Except.toOption, Option.map]
    exact congrArg some (c4_generation_mutates_request envW calcHF st hg)

theorem aliasParameters_preserves (p : Parameters) :
    (aliasParameters p).method = p.method ∧
    (aliasParameters p).basis_set = p.basis_set ∧
    (aliasParameters p).custom_basis_sets = p.custom_basis_sets ∧
    (aliasParameters p).solvent = p.solvent ∧
    (aliasParameters p).solvation_model = p.solvation_model ∧
    (aliasParameters p).solvation_radii = p.solvation_radii ∧
    (aliasParameters p).custom_solvation_radii = p.custom_solvation_radii ∧
    (aliasParameters p).specifications = p.specifications ∧
    (aliasParameters p).software = p.software ∧
    (aliasParameters p).d3 = p.d3 ∧
    (aliasParameters p).d3bj = p.d3bj := by
  unfold aliasParameters
  split_ifs <;> exact ⟨rfl, rfl, rfl, rfl, rfl, rfl, rfl, rfl, rfl, rfl, rfl⟩

theorem initSt_calc (c0 : Calculation) : (initSt c0).calc_ = initCalc c0 := rfl

theorem initCalc_parameters (c0 : Calculation) :
    (initCalc c0).parameters = aliasParameters c0.parameters := rfl

theorem initCalc_type (c0 : Calculation) : (initCalc c0).type = c0.type := rfl

theorem initCalc_constraints (c0 : Calculation) :
    (initCalc c0).constraints = c0.constraints := rfl

/-- The Solvation Builder is the identity for vacuum requests. -/
theorem handle_solvation_vacuum (env : Env) (st : St)
    (h : pyLower st.calc_.parameters.solvent = "" ∨
      pyLower st.calc_.parameters.solvent = "vacuum") :
    handle_solvation env st = .ok st := by
  unfold handle_solvation
  rcases h with h | h <;> simp [h]

/-- The Specification Router fails with `InvalidParameter` on a
constrained optimization with no constraints. -/
theorem handle_specifications_constr_empty (st : St)
    (ht : st.calc_.type = CalcType.CONSTR_OPT)
    (hc : st.calc_.constraints = []) :
    handle_specifications st = .error .invalidParameter := by
  have hf := (specFold_preserves (specTokens st.calc_.parameters.specifications) st "\n").1
  simp only [handle_specifications]
  rw [if_pos (by simp [hf, ht]), if_pos (by simp [hf, hc])]

/-- C8 (confirmed): for every constrained-optimization request whose
constraint list is empty (and which reaches the Specification Router: a
vacuum solvent keeps the Solvation Builder from failing first),
generation fails with `InvalidParameter`. -/
theorem c8_empty_constraints_invalid (env : Env) (c0 : Calculation)
    (ht : c0.type = CalcType.CONSTR_OPT)
    (hc : c0.constraints = [])
    (hsolv : pyLower c0.parameters.solvent = "" ∨
      pyLower c0.parameters.solvent = "vacuum") :
    gen env c0 = .error .invalidParameter := by
  have htasks := handle_tasks_preserves env (initSt c0)
  simp only [gen]
  rw [if_neg (by rw [initSt_calc, initCalc_type, ht]; simp [KEYWORDS])]
  rw [handle_solvation_vacuum env _ (by
    rw [htasks.1, initSt_calc, initCalc_parameters, (aliasParameters_preserves c0.parameters).2.2.2.1]
    exact hsolv)]
  dsimp only
  rw [handle_specifications_constr_empty _ (by
      rw [htasks.1, initSt_calc, initCalc_type, ht])
    (by rw [htasks.1, initSt_calc, initCalc_constraints, hc])]

/-- C8 (confirmed, witness). -/
theorem c8_empty_constraints_invalid_witness :
    calcConstrEmpty.type = CalcType.CONSTR_OPT ∧ calcConstrEmpty.constraints = [] ∧
    gen envW calcConstrEmpty = .error .invalidParameter :=
  ⟨by decide, by decide,
    c8_empty_constraints_invalid envW calcConstrEmpty (by decide) (by decide)
      (Or.inl (by decide))⟩

set_option maxHeartbeats 1000000 in
/-- A statement that does not route to the method block leaves the method
block unchanged. -/
theorem specStep_method_of_no_route (st : St) (temp tok : String)
    (h : routesToMethod st.calc_.parameters.theory_level tok = false) :
    (specStep st temp tok).1.method_block = st.method_block := by
  unfold routesToMethod at h
  unfold specStep
  cases hp : parenMatch tok with
  | none => dsimp only; split_ifs <;> rfl
  | some bc =>
    obtain ⟨bn, cmd⟩ := bc
    rw [hp] at h
    dsimp only at h ⊢
    simp only [Bool.or_eq_false_iff] at h
    split_ifs <;>
      first
        | rfl
        | (exfalso
           simp_all only [Bool.or_eq_true, Bool.and_eq_true, Bool.and_eq_false_iff,
             Bool.eq_false_iff, ne_eq]
           tauto)

/-- If no statement routes to the method block, the routing loop leaves
the method block unchanged. -/
theorem specFold_method_of_no_route : ∀ (toks : List String) (st : St) (temp : String),
    (∀ tok ∈ toks, routesToMethod st.calc_.parameters.theory_level tok = false) →
    (specFold st temp toks).1.method_block = st.method_block := by
  intro toks
  induction toks with
  | nil => intro st temp _; rfl
  | cons tok rest ih =>
    intro st temp h
    have hstep := specStep_method_of_no_route st temp tok (h tok (List.mem_cons_self _ _))
    have hcalc := (specStep_preserves st temp tok).1
    unfold specFold
    rw [ih (specStep st temp tok).1 (specStep st temp tok).2
      (fun t ht => by rw [hcalc]; exact h t (List.mem_cons_of_mem _ ht))]
    exact hstep

/-- The method block of a successful Specification Router run, as a
function of the state after the routing loop. -/
theorem handle_specifications_ok_method (st st' : St)
    (h : handle_specifications st = .ok st') :
    st'.method_block =
      (if (specFold st "\n" (specTokens st.calc_.parameters.specifications)).1.calc_.parameters.theory_level == "ccsd" &&
          (if (specFold st "\n" (specTokens st.calc_.parameters.specifications)).1.calc_.parameters.theory_level == "mp2" &&
              (specFold st "\n" (specTokens st.calc_.parameters.specifications)).1.method_block == "mp2\n"
           then "" else (specFold st "\n" (specTokens st.calc_.parameters.specifications)).1.method_block) == "ccsd\n"
       then ""
       else (if (specFold st "\n" (specTokens st.calc_.parameters.specifications)).1.calc_.parameters.theory_level == "mp2" &&
              (specFold st "\n" (specTokens st.calc_.parameters.specifications)).1.method_block == "mp2\n"
             then "" else (specFold st "\n" (specTokens st.calc_.parameters.specifications)).1.method_block)) := by
  simp only [handle_specifications] at h
  split at h
  · split at h
    · exact absurd h (by simp)
    · injection h with h
      subst h
      rfl
  · injection h with h
    subst h
    rfl

/-- The method block is seeded with the theory level plus a newline for
post-mean-field theory levels. -/
theorem handle_tasks_method_post (env : Env) (st : St)
    (h : st.calc_.parameters.theory_level = "mp2" ∨
      st.calc_.parameters.theory_level = "ccsd") :
    (handle_tasks env st).method_block = st.method_block ++ "\n" := by
  unfold handle_tasks
  rcases h with h | h <;> simp [h]

/-- The Block Closer leaves an empty method block empty. -/
theorem close_blocks_empty_method (st : St) (h : st.method_block = "") :
    (close_blocks st).method_block = "" := by
  unfold close_blocks
  rw [h]
  simp

/-- C10 (confirmed): for every request whose (aliased) theory level is
second-order perturbation theory or coupled-cluster and whose
specification string routes no statement into the method block, a
successful generation run resets the method block to the empty string,
so the assembled document interpolates nothing for it and the Block
Closer adds no closing marker for it. -/
theorem c10_post_scf_method_block_reset (env : Env) (c0 : Calculation) (st : St)
    (hth : (aliasParameters c0.parameters).theory_level = "mp2" ∨
      (aliasParameters c0.parameters).theory_level = "ccsd")
    (hroute : ∀ tok ∈ specTokens c0.parameters.specifications,
      routesToMethod (aliasParameters c0.parameters).theory_level tok = false)
    (h : gen env c0 = .ok st) :
    st.method_block = "" := by
  simp only [gen] at h
  split at h
  · exact absurd h (by simp)
  · cases hs : handle_solvation env (handle_tasks env (initSt c0)) with
    | error e => rw [hs] at h; exact absurd h (by simp)
    | ok st2 =>
      rw [hs] at h
      dsimp only at h
      cases hsp : handle_specifications st2 with
      | error e => rw [hsp] at h; exact absurd h (by simp)
      | ok st3 =>
        rw [hsp] at h
        dsimp only at h
        cases hb : handle_basis_sets env (handle_xyz env st3) with
        | error e => rw [hb] at h; exact absurd h (by simp)
        | ok st5 =>
          rw [hb] at h
          dsimp only at h
          injection h with h
          subst h
          -- facts about the state reaching the router
          have hcalc2 : st2.calc_ = initCalc c0 := by
            rw [(handle_solvation_ok_preserves env _ _ hs).1,
              (handle_tasks_preserves env (initSt c0)).1, initSt_calc]
          have hth2 : st2.calc_.parameters.theory_level =
              (aliasParameters c0.parameters).theory_level := by
            rw [hcalc2, initCalc_parameters]
          have hspecs2 : st2.calc_.parameters.specifications =
              c0.parameters.specifications := by
            rw [hcalc2, initCalc_parameters,
              (aliasParameters_preserves c0.parameters).2.2.2.2.2.2.2.1]
          have hmb2 : st2.method_block =
              (aliasParameters c0.parameters).theory_level ++ "\n" := by
            rw [(handle_solvation_ok_preserves env _ _ hs).2.2.1,
              handle_tasks_method_post env (initSt c0) (by
                rw [initSt_calc, initCalc_parameters]; exact hth)]
            rfl
          -- the routing loop leaves the method block unchanged
          have hfold_calc :=
            (specFold_preserves (specTokens st2.calc_.parameters.specifications) st2 "\n").1
          have hfold : (specFold st2 "\n"
              (specTokens st2.calc_.parameters.specifications)).1.method_block =
              st2.method_block :=
            specFold_method_of_no_route _ st2 "\n" (fun tok ht => by
              rw [hth2]
              exact hroute tok (by rwa [hspecs2] at ht))
          -- the reset empties the block
          have hmethod3 : st3.method_block = "" := by
            rw [handle_specifications_ok_method st2 st3 hsp]
            rw [hfold, hfold_calc, hth2, hmb2]
            rcases hth with hth1 | hth1 <;> rw [hth1] <;> decide
          have hmethod4 : st5.method_block = "" := by
            rw [(handle_basis_sets_ok_preserves env _ _ hb).2.2.1,
              (handle_xyz_preserves env st3).2.2.1, hmethod3]
          rw [(create_input_file_preserves (close_blocks st5)).2.2.1,
            close_blocks_empty_method st5 hmethod4]

/-- C10 (confirmed, witness). -/
theorem c10_post_scf_method_block_reset_witness :
    ((aliasParameters calcMp2.parameters).theory_level = "mp2" ∨
      (aliasParameters calcMp2.parameters).theory_level = "ccsd") ∧
    (∀ tok ∈ specTokens calcMp2.parameters.specifications,
      routesToMethod (aliasParameters calcMp2.parameters).theory_level tok = false) ∧
    (gen envW calcMp2).toOption.map (fun st => st.method_block) = some "" := by
  refine ⟨Or.inl (by decide), by decide, ?_⟩
  cases hg : gen envW calcMp2 with
  | error e =>
    have hok : (gen envW calcMp2).toOption.isSome = true := by decide
    rw [hg] at hok
    simp [Except.toOption] at hok
  | ok st =>
    simp only [Except.toOption, Option.map]
    exact congrArg some (c10_post_scf_method_block_reset envW calcMp2 st
      (Or.inl (by decide)) (by decide) hg)

set_option maxHeartbeats 1000000 in
/-- Each routing step either leaves the task buffer alone or applies the
`neb`-to-`string` swap to it. -/
theorem specStep_tasks (st : St) (temp tok : String) :
    (specStep st temp tok).1.tasks = st.tasks ∨
    (specStep st temp tok).1.tasks = pyReplace st.tasks "neb" "string" := by
  unfold specStep
  cases parenMatch tok with
  | none =>
    dsimp only
    split_ifs
    · exact Or.inr rfl
    · exact Or.inl rfl
  | some bc =>
    obtain ⟨bn, cmd⟩ := bc
    dsimp only
    split_ifs <;> exact Or.inl rfl

/-- Once the task buffer is `neb`-free, no routing step changes it. -/
theorem specStep_tasks_of_no_neb (st : St) (temp tok : String)
    (h : pyIn "neb" st.tasks = false) :
    (specStep st temp tok).1.tasks = st.tasks := by
  rcases specStep_tasks st temp tok with h1 | h1
  · exact h1
  · rw [h1, swap_id_of_no_neb st.tasks h]

/-- Once the task buffer is `neb`-free, the whole routing loop leaves it
unchanged. -/
theorem specFold_tasks_of_no_neb : ∀ (toks : List String) (st : St) (temp : String),
    pyIn "neb" st.tasks = false →
    (specFold st temp toks).1.tasks = st.tasks := by
  intro toks
  induction toks with
  | nil => intro st temp _; rfl
  | cons tok rest ih =>
    intro st temp h
    have hstep := specStep_tasks_of_no_neb st temp tok h
    unfold specFold
    rw [ih (specStep st temp tok).1 (specStep st temp tok).2 (by rw [hstep]; exact h)]
    exact hstep

/-- A bare reaction-path-variant token has no parenthesized part and is a
member of the variant-synonym list. -/
theorem variant_token_shape (tok : String) (h : variantKeys.contains tok = true) :
    parenMatch tok = none ∧ variantKeys.contains tok = true := by
  have hmem : tok = "string" ∨ tok = "freezing string sethod" ∨ tok = "fsm" ∨
      tok = "freezing string" := by
    simpa [variantKeys] using h
  rcases hmem with rfl | rfl | rfl | rfl <;> exact ⟨by decide, by decide⟩

/-- If the routed statements contain a bare reaction-path-variant token,
the routing loop leaves the task buffer `neb`-free, and introduces
`string` into it whenever `neb` was present. -/
theorem specFold_variant_tasks : ∀ (toks : List String) (st : St) (temp tok : String),
    tok ∈ toks → variantKeys.contains tok = true →
    pyIn "neb" (specFold st temp toks).1.tasks = false ∧
    (pyIn "neb" st.tasks = true →
      pyIn "string" (specFold st temp toks).1.tasks = true) := by
  intro toks
  induction toks with
  | nil => intro st temp tok hmem; exact absurd hmem (List.not_mem_nil tok)
  | cons t rest ih =>
    intro st temp tok hmem hvar
    rcases List.mem_cons.mp hmem with rfl | hmem'
    · -- the variant token itself: the swap happens now
      obtain ⟨hnone, hcont⟩ := variant_token_shape tok hvar
      have hstep : (specStep st temp tok).1.tasks = pyReplace st.tasks "neb" "string" := by
        unfold specStep
        rw [hnone]
        dsimp only
        rw [if_pos hcont]
      have hno : pyIn "neb" (specStep st temp tok).1.tasks = false := by
        rw [hstep]; exact no_neb_after_swap st.tasks
      have hrest : (specFold (specStep st temp tok).1 (specStep st temp tok).2 rest).1.tasks =
          (specStep st temp tok).1.tasks :=
        specFold_tasks_of_no_neb rest _ _ hno
      constructor
      · show pyIn "neb" (specFold (specStep st temp tok).1 (specStep st temp tok).2 rest).1.tasks = false
        rw [hrest]; exact hno
      · intro hneb
        show pyIn "string" (specFold (specStep st temp tok).1 (specStep st temp tok).2 rest).1.tasks = true
        rw [hrest, hstep]
        exact string_after_swap st.tasks hneb
    · -- the variant token lies further on
      have hih := ih (specStep st temp t).1 (specStep st temp t).2 tok hmem' hvar
      refine ⟨hih.1, fun hneb => ?_⟩
      rcases specStep_tasks st temp t with h1 | h1
      · exact hih.2 (by rw [h1]; exact hneb)
      · have hno : pyIn "neb" (specStep st temp t).1.tasks = false := by
          rw [h1]; exact no_neb_after_swap st.tasks
        have hrest : (specFold (specStep st temp t).1 (specStep st temp t).2 rest).1.tasks =
            (specStep st temp t).1.tasks :=
          specFold_tasks_of_no_neb rest _ _ hno
        show pyIn "string" (specFold (specStep st temp t).1 (specStep st temp t).2 rest).1.tasks = true
        rw [hrest, h1]
        exact string_after_swap st.tasks hneb

/-- The task and calculation-type buffers of a successful Specification
Router run, as functions of the state after the routing loop. -/
theorem handle_specifications_ok_tasks_calc (st st' : St)
    (h : handle_specifications st = .ok st') :
    st'.tasks = (specFold st "\n" (specTokens st.calc_.parameters.specifications)).1.tasks ∧
    st'.calculation_block =
      (if pyIn "string" (specFold st "\n" (specTokens st.calc_.parameters.specifications)).1.tasks then
        pyReplace (specFold st "\n" (specTokens st.calc_.parameters.specifications)).1.calculation_block
          "neb" "string"
       else (specFold st "\n" (specTokens st.calc_.parameters.specifications)).1.calculation_block) := by
  simp only [handle_specifications] at h
  split at h
  · split at h
    · exact absurd h (by simp)
    · injection h with h
      subst h
      exact ⟨rfl, rfl⟩
  · injection h with h
    subst h
    exact ⟨rfl, rfl⟩

/-- The Task Deriver seeds the task buffer with the `neb` keyword for
minimum-energy-path calculations. -/
theorem handle_tasks_mep_neb (env : Env) (st : St)
    (ht : st.calc_.type = CalcType.MEP) (h0 : st.tasks = "") :
    pyIn "neb" (handle_tasks env st).tasks = true := by
  unfold handle_tasks
  dsimp only
  rw [ht, h0]
  simp only [KEYWORDS, Option.getD, List.map, String.join, List.foldl]
  have hempty : ∀ s : String, "" ++ s = s := fun s => by
    cases s
    rfl
  rw [hempty, hempty]
  apply pyIn_append_of_left
  exact pyIn_append_of_right _ _ _ (by decide)

/-- The Block Closer either appends one closing marker to the
calculation-type buffer or leaves it alone. -/
theorem close_blocks_calculation (st : St) :
    (close_blocks st).calculation_block = st.calculation_block ∨
    (close_blocks st).calculation_block = st.calculation_block ++ " end \n" := by
  unfold close_blocks
  dsimp only
  split_ifs
  · exact Or.inr rfl
  · exact Or.inl rfl

/-- The Block Closer either appends one closing marker to the task-free
buffers or leaves them alone; the task buffer itself is untouched. -/
theorem c7_no_neb_through_close (st : St) (h : pyIn "neb" st.calculation_block = false) :
    pyIn "neb" (close_blocks st).calculation_block = false := by
  rcases close_blocks_calculation st with hc | hc
  · rw [hc]; exact h
  · rw [hc]; exact no_neb_append_end st.calculation_block h

/-- C7 (confirmed): if the specification string contains a bare
reaction-path-variant synonym token, then after generation no occurrence
of the default reaction-path keyword `neb` remains in the task-directive
buffer, and for minimum-energy-path calculations none remains in the
calculation-type block either (both were swapped to the alternative
keyword `string`). -/
theorem c7_variant_keyword_swap (env : Env) (c0 : Calculation) (st : St) (tok : String)
    (htok : tok ∈ specTokens c0.parameters.specifications)
    (hvar : variantKeys.contains tok = true)
    (h : gen env c0 = .ok st) :
    pyIn "neb" st.tasks = false ∧
    (c0.type = CalcType.MEP → pyIn "neb" st.calculation_block = false) := by
  simp only [gen] at h
  split at h
  · exact absurd h (by simp)
  · cases hs : handle_solvation env (handle_tasks env (initSt c0)) with
    | error e => rw [hs] at h; exact absurd h (by simp)
    | ok st2 =>
      rw [hs] at h
      dsimp only at h
      cases hsp : handle_specifications st2 with
      | error e => rw [hsp] at h; exact absurd h (by simp)
      | ok st3 =>
        rw [hsp] at h
        dsimp only at h
        cases hb : handle_basis_sets env (handle_xyz env st3) with
        | error e => rw [hb] at h; exact absurd h (by simp)
        | ok st5 =>
          rw [hb] at h
          dsimp only at h
          injection h with h
          subst h
          have hcalc2 : st2.calc_ = initCalc c0 := by
            rw [(handle_solvation_ok_preserves env _ _ hs).1,
              (handle_tasks_preserves env (initSt c0)).1, initSt_calc]
          have hspecs2 : st2.calc_.parameters.specifications =
              c0.parameters.specifications := by
            rw [hcalc2, initCalc_parameters,
              (aliasParameters_preserves c0.parameters).2.2.2.2.2.2.2.1]
          have hfold := specFold_variant_tasks
            (specTokens st2.calc_.parameters.specifications) st2 "\n" tok
            (by rwa [hspecs2]) hvar
          have htc := handle_specifications_ok_tasks_calc st2 st3 hsp
          -- the task buffer after the router is neb-free
          have htasks3 : pyIn "neb" st3.tasks = false := by
            rw [htc.1]; exact hfold.1
          -- transport the task buffer to the final state
          have htasks_final : (create_input_file (close_blocks st5)).tasks = st3.tasks := by
            rw [(create_input_file_preserves (close_blocks st5)).2.1,
              (close_blocks_preserves st5).2.1,
              (handle_basis_sets_ok_preserves env _ _ hb).2.1,
              (handle_xyz_preserves env st3).2.1]
          refine ⟨by rw [htasks_final]; exact htasks3, fun hmep => ?_⟩
          -- minimum-energy-path: the task buffer contained neb, so the
          -- swap fires on the calculation block as well
          have hneb2 : pyIn "neb" st2.tasks = true := by
            rw [(handle_solvation_ok_preserves env _ _ hs).2.1]
            exact handle_tasks_mep_neb env (initSt c0)
              (by rw [initSt_calc, initCalc_type]; exact hmep) rfl
          have hstring : pyIn "string"
              (specFold st2 "\n" (specTokens st2.calc_.parameters.specifications)).1.tasks = true :=
            hfold.2 hneb2
          have hcalc3 : pyIn "neb" st3.calculation_block = false := by
            rw [htc.2, if_pos hstring]
            exact no_neb_after_swap _
          have hcalc5 : pyIn "neb" st5.calculation_block = false := by
            rw [(handle_basis_sets_ok_preserves env _ _ hb).2.2.2.1,
              (handle_xyz_preserves env st3).2.2.2.1]
            exact hcalc3
          rw [(create_input_file_preserves (close_blocks st5)).2.2.2.1]
          exact c7_no_neb_through_close st5 hcalc5

set_option maxRecDepth 4000 in
theorem c7_variant_keyword_swap_witness :
    "fsm" ∈ specTokens calcMep.parameters.specifications ∧
    variantKeys.contains "fsm" = true ∧
    (gen envW calcMep).toOption.map
      (fun st => (pyIn "neb" st.tasks, pyIn "neb" st.calculation_block)) =
      some (false, false) := by
  refine ⟨by decide, by decide, ?_⟩
  cases hg : gen envW calcMep with
  | error e =>
    have hok : (gen envW calcMep).toOption.isSome = true := by decide
    rw [hg] at hok
    simp [Except.toOption] at hok
  | ok st =>
    simp only [Except.toOption, Option.map]
    have h := c7_variant_keyword_swap envW calcMep st "fsm" (by decide) (by decide) hg
    rw [h.1, h.2 (by decide)]

/-- A non-vacuum solvent with the solvent-density model under a
non-density-functional theory level makes the Solvation Builder fail. -/
theorem handle_solvation_smd_nondft (env : Env) (st : St)
    (hs1 : pyLower st.calc_.parameters.solvent ≠ "")
    (hs2 : pyLower st.calc_.parameters.solvent ≠ "vacuum")
    (hm : pyLower st.calc_.parameters.solvation_model = "smd")
    (hth : st.calc_.parameters.theory_level ≠ "dft") :
    handle_solvation env st = .error .unimplementedError := by
  unfold handle_solvation
  rw [if_neg (by simp [hs1, hs2])]
  dsimp only
  rw [hm]
  rw [if_neg (by decide)]
  rw [if_pos (by decide)]
  rw [if_pos (bne_iff_ne.mpr hth)]

/-- A successful Solvation Builder run on a non-vacuum solvent with the
solvent-density model leaves the solvent-density directive in the
ancillary buffer. -/
theorem handle_solvation_smd_dft (env : Env) (st st' : St)
    (hs1 : pyLower st.calc_.parameters.solvent ≠ "")
    (hs2 : pyLower st.calc_.parameters.solvent ≠ "vacuum")
    (hm : pyLower st.calc_.parameters.solvation_model = "smd")
    (h : handle_solvation env st = .ok st') :
    pyIn "do_cosmo_smd" st'.additional_block = true := by
  unfold handle_solvation at h
  rw [if_neg (by simp [hs1, hs2])] at h
  dsimp only at h
  rw [hm] at h
  rw [if_neg (by decide)] at h
  rw [if_pos (by decide)] at h
  split at h
  · exact absurd h (by simp)
  · rename_i st3 heq
    have hsmd3 : pyIn "do_cosmo_smd" st3.additional_block = true := by
      revert heq
      split
      · intro heq
        exact absurd heq (by simp)
      · intro heq
        injection heq with heq
        subst heq
        dsimp only
        exact pyIn_append_of_right _ _ _ (by decide)
    split at h
    · exact absurd h (by simp)
    · split at h
      · split at h
        · exact absurd h (by simp)
        · injection h with h
          subst h
          dsimp only
          repeat
            first
              | exact hsmd3
              | apply pyIn_append_of_left
      · injection h with h
        subst h
        exact hsmd3

set_option maxHeartbeats 1000000 in
/-- Each routing step preserves an occurrence of the solvent-density
directive in the ancillary buffer. -/
theorem specStep_smd_survives (st : St) (temp tok : String)
    (h : pyIn "do_cosmo_smd" st.additional_block = true) :
    pyIn "do_cosmo_smd" (specStep st temp tok).1.additional_block = true := by
  unfold specStep
  cases parenMatch tok with
  | none =>
    dsimp only
    split_ifs <;>
      first
        | exact h
        | exact pyIn_append_of_left _ _ _ (pyIn_append_of_left _ _ _ h)
  | some bc =>
    obtain ⟨bn, cmd⟩ := bc
    dsimp only
    split_ifs <;>
      first
        | exact h
        | exact smd_survives_sol_insert _ _ h

/-- The routing loop preserves an occurrence of the solvent-density
directive in the ancillary buffer. -/
theorem specFold_smd_survives : ∀ (toks : List String) (st : St) (temp : String),
    pyIn "do_cosmo_smd" st.additional_block = true →
    pyIn "do_cosmo_smd" (specFold st temp toks).1.additional_block = true := by
  intro toks
  induction toks with
  | nil => intro st temp h; exact h
  | cons tok rest ih =>
    intro st temp h
    unfold specFold
    exact ih _ _ (specStep_smd_survives st temp tok h)

set_option maxHeartbeats 1000000 in
/-- A successful Specification Router run preserves an occurrence of the
solvent-density directive in the ancillary buffer. -/
theorem handle_specifications_smd (st st' : St)
    (h : handle_specifications st = .ok st')
    (hin : pyIn "do_cosmo_smd" st.additional_block = true) :
    pyIn "do_cosmo_smd" st'.additional_block = true := by
  have hf := specFold_smd_survives (specTokens st.calc_.parameters.specifications) st "\n" hin
  simp only [handle_specifications] at h
  generalize hgen : specFold st "\n" (specTokens st.calc_.parameters.specifications) = r at h hf
  split at h
  · split at h
    · exact absurd h (by simp)
    · injection h with h
      subst h
      dsimp only
      split_ifs <;>
        (repeat
          first
            | exact hf
            | apply pyIn_append_of_left)
  · injection h with h
    subst h
    dsimp only
    split_ifs <;>
      (repeat
        first
          | exact hf
          | apply pyIn_append_of_left)

/-- The Block Closer preserves an occurrence of the solvent-density
directive in the ancillary buffer. -/
theorem close_blocks_smd (st : St)
    (h : pyIn "do_cosmo_smd" st.additional_block = true) :
    pyIn "do_cosmo_smd" (close_blocks st).additional_block = true := by
  unfold close_blocks
  dsimp only
  split_ifs
  · exact pyIn_append_of_left _ _ _ h
  · exact h

/-- The assembler interpolates the ancillary buffer into the document, so
an occurrence of the solvent-density directive reaches the document. -/
theorem create_input_file_smd (st : St)
    (h : pyIn "do_cosmo_smd" st.additional_block = true) :
    pyIn "do_cosmo_smd" (create_input_file st).input_file = true := by
  unfold create_input_file
  dsimp only
  apply smd_survives_normalize
  apply pyIn_append_of_left
  apply pyIn_append_of_left
  apply pyIn_append_of_left
  exact pyIn_append_of_right _ _ _ h

/-- C5 (confirmed): for every request with a non-vacuum solvent and the
solvent-density (smd) solvation model that passes the supported-calculation
check, if the (aliased) theory level is density-functional then every
generated document contains the solvent-density directive `do_cosmo_smd`,
and for any other theory level generation fails with the
unsupported-solvation-model error (`UnimplementedError` in the source,
the spec's abstract `UnsupportedSolvationModel`). -/
theorem c5_smd_requires_dft (env : Env) (c0 : Calculation)
    (hkw : (KEYWORDS c0.type).isNone = false)
    (hs1 : pyLower c0.parameters.solvent ≠ "")
    (hs2 : pyLower c0.parameters.solvent ≠ "vacuum")
    (hm : pyLower c0.parameters.solvation_model = "smd") :
    ((aliasParameters c0.parameters).theory_level = "dft" →
      ∀ st, gen env c0 = .ok st → pyIn "do_cosmo_smd" st.input_file = true) ∧
    ((aliasParameters c0.parameters).theory_level ≠ "dft" →
      gen env c0 = .error .unimplementedError) := by
  have hcalc1 : (handle_tasks env (initSt c0)).calc_ = initCalc c0 := by
    rw [(handle_tasks_preserves env (initSt c0)).1, initSt_calc]
  have hv1 : pyLower (handle_tasks env (initSt c0)).calc_.parameters.solvent ≠ "" := by
    rw [hcalc1, initCalc_parameters, (aliasParameters_preserves c0.parameters).2.2.2.1]
    exact hs1
  have hv2 : pyLower (handle_tasks env (initSt c0)).calc_.parameters.solvent ≠ "vacuum" := by
    rw [hcalc1, initCalc_parameters, (aliasParameters_preserves c0.parameters).2.2.2.1]
    exact hs2
  have hvm : pyLower (handle_tasks env (initSt c0)).calc_.parameters.solvation_model = "smd" := by
    rw [hcalc1, initCalc_parameters, (aliasParameters_preserves c0.parameters).2.2.2.2.1]
    exact hm
  have hth_eq : (handle_tasks env (initSt c0)).calc_.parameters.theory_level =
      (aliasParameters c0.parameters).theory_level := by
    rw [hcalc1, initCalc_parameters]
  constructor
  · intro hdft st h
    simp only [gen] at h
    rw [if_neg (by rw [initSt_calc, initCalc_type]; simp [hkw])] at h
    cases hs : handle_solvation env (handle_tasks env (initSt c0)) with
    | error e => rw [hs] at h; exact absurd h (by simp)
    | ok st2 =>
      rw [hs] at h
      dsimp only at h
      have hsmd2 : pyIn "do_cosmo_smd" st2.additional_block = true :=
        handle_solvation_smd_dft env _ st2 hv1 hv2 hvm hs
      cases hsp : handle_specifications st2 with
      | error e => rw [hsp] at h; exact absurd h (by simp)
      | ok st3 =>
        rw [hsp] at h
        dsimp only at h
        have hsmd3 : pyIn "do_cosmo_smd" st3.additional_block = true :=
          handle_specifications_smd st2 st3 hsp hsmd2
        cases hb : handle_basis_sets env (handle_xyz env st3) with
        | error e => rw [hb] at h; exact absurd h (by simp)
        | ok st5 =>
          rw [hb] at h
          dsimp only at h
          injection h with h
          subst h
          have hsmd5 : pyIn "do_cosmo_smd" st5.additional_block = true := by
            rw [(handle_basis_sets_ok_preserves env _ _ hb).2.2.2.2.1,
              (handle_xyz_preserves env st3).2.2.2.2.1]
            exact hsmd3
          exact create_input_file_smd _ (close_blocks_smd st5 hsmd5)
  · intro hndft
    simp only [gen]
    rw [if_neg (by rw [initSt_calc, initCalc_type]; simp [hkw])]
    rw [handle_solvation_smd_nondft env _ hv1 hv2 hvm (by rw [hth_eq]; exact hndft)]

set_option maxRecDepth 4000 in
theorem c5_smd_requires_dft_witness :
    (pyLower calcSmd.parameters.solvent ≠ "" ∧
     pyLower calcSmd.parameters.solvation_model = "smd" ∧
     (aliasParameters calcSmd.parameters).theory_level = "dft" ∧
     (gen envW calcSmd).toOption.map (fun st => pyIn "do_cosmo_smd" st.input_file) =
       some true) ∧
    ((aliasParameters calcSmdCC.parameters).theory_level ≠ "dft" ∧
     gen envW calcSmdCC = .error .unimplementedError) := by
  refine ⟨⟨by decide, by decide, by decide, ?_⟩, by decide,
    (c5_smd_requires_dft envW calcSmdCC (by decide) (by decide) (by decide) (by decide)).2
      (by decide)⟩
  cases hg : gen envW calcSmd with
  | error e =>
    have hok : (gen envW calcSmd).toOption.isSome = true := by decide
    rw [hg] at hok
    simp [Except.toOption] at hok
  | ok st =>
    simp only [Except.toOption, Option.map]
    exact congrArg some
      ((c5_smd_requires_dft envW calcSmd (by decide) (by decide) (by decide) (by decide)).1
        (by decide) st hg)

/-- The Specification Router only fails on a constrained optimization
with an empty constraint list; any other state passes through. -/
theorem handle_specifications_ok_exists (st : St)
    (hc : st.calc_.type = CalcType.CONSTR_OPT → st.calc_.constraints ≠ []) :
    ∃ st', handle_specifications st = .ok st' := by
  have hp := (specFold_preserves (specTokens st.calc_.parameters.specifications) st "\n").1
  simp only [handle_specifications]
  by_cases hty : ((specFold st "\n" (specTokens st.calc_.parameters.specifications)).1.calc_.type ==
      CalcType.CONSTR_OPT) = true
  · rw [if_pos hty]
    have hlen : ((specFold st "\n" (specTokens st.calc_.parameters.specifications)).1.calc_.constraints.length ==
        0) = false := by
      have h1 : st.calc_.type = CalcType.CONSTR_OPT := by
        rw [← hp]
        exact beq_iff_eq.mp hty
      rw [hp]
      simp only [beq_eq_false_iff_ne, ne_eq, List.length_eq_zero]
      exact hc h1
    rw [if_neg (by rw [hlen]; simp)]
    exact ⟨_, rfl⟩
  · rw [if_neg hty]
    exact ⟨_, rfl⟩

/-- Symbolic run of `parse_custom_basis_set` on a single custom override
for an element present in the geometry whose basis-database query fails:
the run succeeds, the raw keyword becomes a library reference for the
element, no ECP fragment is spliced, and the query warning is recorded. -/
theorem parse_custom_basis_set_bse_fail (env : Env) (base_bs : String) (st : St)
    (el kw : String) (n : Nat)
    (hcustom : st.calc_.parameters.custom_basis_sets = [(el, kw)])
    (hmem : ((scanAtoms [el] (pySplitOn st.calc_.xyz "\n") ([], [])).1).contains el = true)
    (hnum : env.atomic_number el = some n)
    (hbse : env.bse_get_basis kw n = none) :
    parse_custom_basis_set env base_bs st = .ok { st with
      basis_set := some
        ((if 0 < (scanAtoms [el] (pySplitOn st.calc_.xyz "\n") ([], [])).2.length then
            "basis spherical \n " ++ pyJoin "\n" ([] : List String) ++ " \n " ++ "* library " ++
              base_bs ++ " except " ++ pyJoin " " [el] ++ " \n"
          else "basis spherical \n " ++ pyJoin "\n" ([] : List String) ++ " \n ") ++
          el ++ " library " ++ kw ++ " \n" ++ "end")
      warnings := st.warnings ++ [bseWarn kw] } := by
  have hloop : customLoop env (scanAtoms [el] (pySplitOn st.calc_.xyz "\n") ([], [])).1
      [(el, kw)] ⟨[], [], [], [], []⟩ =
      .ok ⟨[], [], [(el, kw)], [el], [bseWarn kw]⟩ := by
    unfold customLoop
    rw [if_neg (by rw [hmem]; decide)]
    dsimp only
    rw [hnum]
    dsimp only
    rw [hbse]
    dsimp only
    rfl
  unfold parse_custom_basis_set
  dsimp only
  rw [hcustom]
  dsimp only [List.map]
  rw [hloop]
  dsimp only
  by_cases hcond : 0 < (scanAtoms [el] (pySplitOn st.calc_.xyz "\n") ([], [])).2.length
  · simp only [if_pos hcond]
    rfl
  · simp only [if_neg hcond]
    rfl

/-- C6 (confirmed): for a custom-basis element present in the geometry
whose basis-database query fails (and a request that otherwise reaches
the Basis Resolver), generation still succeeds; the final basis block
references the raw user-supplied keyword as a library reference for that
element, contains no ECP fragment (the block ends right after the library
references), and the non-fatal database warning is recorded. -/
theorem c6_bse_failure_graceful (env : Env) (c0 : Calculation) (el kw : String) (n : Nat)
    (hkw : (KEYWORDS c0.type).isNone = false)
    (hsolv : pyLower c0.parameters.solvent = "" ∨ pyLower c0.parameters.solvent = "vacuum")
    (hcon : c0.type = CalcType.CONSTR_OPT → c0.constraints ≠ [])
    (hcustom : c0.parameters.custom_basis_sets = [(el, kw)])
    (hmem : ((scanAtoms [el] (pySplitOn c0.xyz "\n") ([], [])).1).contains el = true)
    (hnum : env.atomic_number el = some n)
    (hbse : env.bse_get_basis kw n = none) :
    ∃ st, gen env c0 = .ok st ∧
      st.basis_set = some
        ((if 0 < (scanAtoms [el] (pySplitOn c0.xyz "\n") ([], [])).2.length then
            "basis spherical \n " ++ pyJoin "\n" ([] : List String) ++ " \n " ++ "* library " ++
              env.get_basis_set c0.parameters.basis_set ++ " except " ++ pyJoin " " [el] ++ " \n"
          else "basis spherical \n " ++ pyJoin "\n" ([] : List String) ++ " \n ") ++
          el ++ " library " ++ kw ++ " \n" ++ "end") ∧
      bseWarn kw ∈ st.warnings := by
  have hcalc1 : (handle_tasks env (initSt c0)).calc_ = initCalc c0 := by
    rw [(handle_tasks_preserves env (initSt c0)).1, initSt_calc]
  have hs : handle_solvation env (handle_tasks env (initSt c0)) =
      .ok (handle_tasks env (initSt c0)) :=
    handle_solvation_vacuum env _ (by
      rw [hcalc1, initCalc_parameters, (aliasParameters_preserves c0.parameters).2.2.2.1]
      exact hsolv)
  obtain ⟨st3, hsp⟩ := handle_specifications_ok_exists (handle_tasks env (initSt c0)) (by
    rw [hcalc1, initCalc_type, initCalc_constraints]
    exact hcon)
  have hc3 : st3.calc_ = initCalc c0 :=
    ((handle_specifications_ok_preserves _ _ hsp).1).trans hcalc1
  have hc4 : (handle_xyz env st3).calc_ = initCalc c0 :=
    ((handle_xyz_preserves env st3).1).trans hc3
  have hcust4 : (handle_xyz env st3).calc_.parameters.custom_basis_sets = [(el, kw)] := by
    rw [hc4, initCalc_parameters, (aliasParameters_preserves c0.parameters).2.2.1]
    exact hcustom
  have hxyz4 : (handle_xyz env st3).calc_.xyz = c0.xyz := by
    rw [hc4]
    rfl
  have hbasis4 : (handle_xyz env st3).calc_.parameters.basis_set = c0.parameters.basis_set := by
    rw [hc4, initCalc_parameters]
    exact (aliasParameters_preserves c0.parameters).2.1
  have hparse := parse_custom_basis_set_bse_fail env
    (env.get_basis_set ((handle_xyz env st3).calc_.parameters.basis_set))
    (handle_xyz env st3) el kw n hcust4 (by rw [hxyz4]; exact hmem) hnum hbse
  have hhb : handle_basis_sets env (handle_xyz env st3) =
      parse_custom_basis_set env
        (env.get_basis_set ((handle_xyz env st3).calc_.parameters.basis_set))
        (handle_xyz env st3) := by
    unfold handle_basis_sets
    dsimp only
    rw [if_neg (by rw [hcust4]; simp)]
    rw [if_pos (show dict_ne_empty_str
      (handle_xyz env st3).calc_.parameters.custom_basis_sets = true from rfl)]
  have hgen : gen env c0 = Except.ok (create_input_file (close_blocks
      { handle_xyz env st3 with
        basis_set := some
          ((if 0 < (scanAtoms [el] (pySplitOn (handle_xyz env st3).calc_.xyz "\n") ([], [])).2.length then
              "basis spherical \n " ++ pyJoin "\n" ([] : List String) ++ " \n " ++ "* library " ++
                env.get_basis_set ((handle_xyz env st3).calc_.parameters.basis_set) ++ " except " ++
                pyJoin " " [el] ++ " \n"
            else "basis spherical \n " ++ pyJoin "\n" ([] : List String) ++ " \n ") ++
            el ++ " library " ++ kw ++ " \n" ++ "end")
        warnings := (handle_xyz env st3).warnings ++ [bseWarn kw] })) := by
    simp only [gen]
    rw [if_neg (by rw [initSt_calc, initCalc_type]; simp [hkw])]
    rw [hs]
    dsimp only
    rw [hsp]
    dsimp only
    rw [hhb, hparse]
  refine ⟨_, hgen, ?_, ?_⟩
  · rw [(create_input_file_preserves _).2.2.2.2.2.1, (close_blocks_preserves _).2.2.1]
    dsimp only
    rw [hxyz4, hbasis4]
  · rw [(create_input_file_preserves _).2.2.2.2.2.2.2.1,
      (close_blocks_preserves _).2.2.2.2.1]
    dsimp only
    simp

set_option maxRecDepth 4000 in
theorem c6_bse_failure_graceful_witness :
    calcBse.parameters.custom_basis_sets = [("Pd", "sdd")] ∧
    envW.atomic_number "Pd" = some 46 ∧
    envW.bse_get_basis "sdd" 46 = none ∧
    ∃ st, gen envW calcBse = .ok st ∧
      st.basis_set = some
        ((if 0 < (scanAtoms ["Pd"] (pySplitOn calcBse.xyz "\n") ([], [])).2.length then
            "basis spherical \n " ++ pyJoin "\n" ([] : List String) ++ " \n " ++ "* library " ++
              envW.get_basis_set calcBse.parameters.basis_set ++ " except " ++
              pyJoin " " ["Pd"] ++ " \n"
          else "basis spherical \n " ++ pyJoin "\n" ([] : List String) ++ " \n ") ++
          "Pd" ++ " library " ++ "sdd" ++ " \n" ++ "end") ∧
      bseWarn "sdd" ∈ st.warnings :=
  ⟨by decide, by decide, by decide,
    c6_bse_failure_graceful envW calcBse "Pd" "sdd" 46 (by decide) (Or.inl (by decide))
      (by decide) (by decide) (by decide) (by decide) (by decide)⟩
